import Mathlib

/-!
Verification of the Rankfor stability-analysis and brand-detection engine.

The TypeScript sources are shallowly embedded: strings are `String` or
`List Char`, JavaScript numbers are `ℚ` (exact rational arithmetic in place
of IEEE floats), `Math.round` is `roundJS`, and the regex passes of the
source are hand-compiled character scanners with the same semantics.
Letter and digit character classes are modelled on their ASCII range.
The file lists all definitions first and all theorems afterwards.
-/

namespace Rankfor

/-- JavaScript `Math.round`: round half upward, i.e. ⌊x + 1/2⌋. -/
def roundJS (q : ℚ) : ℤ := ⌊q + 1/2⌋

/-- JavaScript whitespace class `\s` (ASCII members). -/
def isWsJS (c : Char) : Bool :=
  c = ' ' || c = '\t' || c = '\n' || c = '\r' || c = '\x0b' || c = '\x0c'

/-- JavaScript word-character class `\w`: letters, digits, underscore (ASCII). -/
def isWordChar (c : Char) : Bool := c.isAlphanum || c = '_'

/-- Drop JS whitespace from both ends of a character list (JS `String.trim`). -/
def trimJS (cs : List Char) : List Char :=
  ((cs.dropWhile isWsJS).reverse.dropWhile isWsJS).reverse

/-- Does `pat` occur verbatim at the head of `l`? -/
def headMatch : List Char → List Char → Bool
  | [], _ => true
  | _ :: _, [] => false
  | p :: ps, c :: cs => p = c && headMatch ps cs

/-- After a match of `word`, is the following position a word boundary? -/
def boundaryAfter (word text : List Char) : Bool :=
  match text.drop word.length with
  | [] => true
  | d :: _ => !isWordChar d

/-- Count the non-overlapping matches of the regex `\bword\b` in `text`
(the source builds this regex per sentiment indicator), scanning left to
right; `prevIsWord` says whether the character before the current position
is a word character. All indicator words begin and end with a letter, so
the leading word boundary holds exactly when the previous character is not
a word character, and the trailing one exactly when the next one is not. -/
def countWordBoundaryMatchesAux (word : List Char) : ℕ → Bool → List Char → ℕ
  | 0, _, _ => 0
  | _ + 1, _, [] => 0
  | fuel + 1, prevIsWord, c :: cs =>
    if word = [] then 0
    else if !prevIsWord && headMatch word (c :: cs) && boundaryAfter word (c :: cs) then
      1 + countWordBoundaryMatchesAux word fuel
        (match word.getLast? with | some d => isWordChar d | none => true)
        ((c :: cs).drop word.length)
    else
      countWordBoundaryMatchesAux word fuel (isWordChar c) cs

/-- Entry point with the fuel fixed to the text length (each step of the
scanner consumes at least one character, so this fuel never runs out). -/
def countWordBoundaryMatches (word : List Char) (prevIsWord : Bool) (text : List Char) : ℕ :=
  countWordBoundaryMatchesAux word text.length prevIsWord text

/-- Sentiment labels of the source union type. -/
inductive Sentiment
  | positive
  | neutral
  | negative
  deriving Repr, DecidableEq

/-- Source constant `POSITIVE_INDICATORS`. -/
def POSITIVE_INDICATORS : List String :=
  ["excellent", "best", "leading", "innovative", "expert", "trusted",
   "recommend", "superior", "outstanding", "proven", "reliable", "quality",
   "effective", "efficient", "top", "premier", "award", "recognized",
   "great", "perfect", "ideal", "exceptional", "remarkable", "impressive"]

/-- Source constant `NEGATIVE_INDICATORS`. -/
def NEGATIVE_INDICATORS : List String :=
  ["poor", "lacking", "inadequate", "failed", "problematic", "inferior",
   "weak", "limited", "concerning", "risk", "expensive", "difficult",
   "disappointing", "issue", "complaint", "alternative to", "avoid",
   "outdated", "slow", "unreliable", "buggy", "confusing", "frustrating"]

/-- Accumulated whole-word match count of an indicator list against a
lower-cased text, mirroring the scoring loops of `analyzeSentiment`. -/
def sentimentScore (indicators : List String) (lower : List Char) : ℕ :=
  indicators.foldl (fun acc w => acc + countWordBoundaryMatches w.data false lower) 0

/-- Source `analyzeSentiment`: whole-word indicator counting with a 1.5x
dominance threshold. -/
def analyzeSentiment (text : String) : Sentiment :=
  let lower := text.data.map Char.toLower
  let positiveScore := sentimentScore POSITIVE_INDICATORS lower
  let negativeScore := sentimentScore NEGATIVE_INDICATORS lower
  if (positiveScore : ℚ) > (negativeScore : ℚ) * (3/2) then .positive
  else if (negativeScore : ℚ) > (positiveScore : ℚ) * (3/2) then .negative
  else .neutral

/-- Source constant `STOP_WORDS`. -/
def STOP_WORDS : List String :=
  ["the", "a", "an", "and", "or", "but", "in", "on", "at", "to", "for", "of",
   "with", "by", "from", "as", "is", "was", "are", "were", "been", "be", "have",
   "has", "had", "do", "does", "did", "will", "would", "could", "should", "may",
   "might", "must", "shall", "can", "need", "that", "which", "who", "whom",
   "this", "these", "those", "it", "its", "they", "them", "their", "our", "your",
   "his", "her", "we", "you", "i", "me", "my", "also", "more", "most", "other",
   "some", "such", "than", "too", "very", "just", "about", "into", "through",
   "during", "before", "after", "above", "below", "between", "under", "again",
   "further", "then", "once", "here", "there", "when", "where", "why", "how",
   "all", "each", "few", "any", "both", "only", "own", "same", "so", "because",
   "until", "while"]

/-- Source constant `SYNONYM_GROUPS`. -/
def SYNONYM_GROUPS : List (List String) :=
  [["product", "service", "solution", "offering", "platform"],
   ["customer", "client", "user", "consumer", "buyer"],
   ["quality", "excellent", "superior", "premium", "high-end"],
   ["price", "cost", "pricing", "value", "affordable"],
   ["fast", "quick", "rapid", "speedy", "efficient"],
   ["reliable", "dependable", "trustworthy", "stable", "consistent"],
   ["innovative", "creative", "novel", "cutting-edge", "advanced"],
   ["experience", "expertise", "knowledge", "skill", "proficiency"],
   ["support", "help", "assistance", "service", "care"],
   ["leader", "leading", "top", "best", "premier", "foremost"],
   ["recommend", "suggest", "advise", "propose"],
   ["benefit", "advantage", "strength", "asset"],
   ["issue", "problem", "challenge", "concern", "difficulty"],
   ["improve", "enhance", "optimize", "upgrade", "boost"],
   ["market", "industry", "sector", "field", "space"]]

/-- Replace every maximal nonempty run of JS whitespace by a single space
(the regex replace of s+ by one space); `inRun` says whether the previous
character was whitespace. -/
def collapseWsAux : Bool → List Char → List Char
  | _, [] => []
  | inRun, c :: cs =>
    if isWsJS c then (if inRun then [] else [' ']) ++ collapseWsAux true cs
    else c :: collapseWsAux false cs

/-- Source `normalizeKeyPoint`: lower-case, keep only letters/digits/
whitespace/hyphen (letter and digit classes modelled on ASCII), collapse
whitespace, trim. -/
def normalizeKeyPoint (keyPoint : String) : String :=
  let lowered := keyPoint.data.map Char.toLower
  let kept := lowered.filter (fun c => c.isAlphanum || isWsJS c || c = '-')
  ⟨trimJS (collapseWsAux false kept)⟩

/-- JS `String.split` with a single-character separator: splits at every
occurrence, keeping empty pieces. -/
def splitChar (sep : Char) : List Char → List (List Char)
  | [] => [[]]
  | c :: cs =>
    match splitChar sep cs with
    | [] => [[c]]
    | h :: t => if c = sep then [] :: h :: t else (c :: h) :: t

/-- Append `x` if not already present (one step of JS `Set` insertion). -/
def insertUnique (l : List String) (x : String) : List String :=
  if x ∈ l then l else l ++ [x]

/-- Deduplicate keeping first occurrences, in insertion order (JS `Set`
built from a list). -/
def dedupFirst (l : List String) : List String :=
  l.foldl insertUnique []

/-- Source `getSignificantWords`: split on single spaces, lower-case,
keep words longer than 2 characters that are not stop words; the JS `Set`
result is modelled as an insertion-ordered duplicate-free list. -/
def getSignificantWords (text : String) : List String :=
  dedupFirst
    (((splitChar ' ' text.data).map (fun w => String.mk (w.map Char.toLower))).filter
      (fun w => decide (2 < w.length) && !(STOP_WORDS.contains w)))

/-- Source `shareWordStem`: words of length at least 5 sharing a prefix of
length min(5, floor(0.6·minLen)). `minLen * 6 / 10` equals
`Math.floor(minLen * 0.6)` for every length (for lengths 5 to 8 the IEEE
products 3.0, 3.59…, 4.20…, 4.79… floor to 3, 3, 4, 4, matching; from
length 9 on the value is capped at 5). -/
def shareWordStem (a b : String) : Bool :=
  let minLen := min a.length b.length
  if minLen < 5 then false
  else
    let prefixLen := min 5 (minLen * 6 / 10)
    decide (a.data.take prefixLen = b.data.take prefixLen)

/-- Source `areSynonyms`: membership of both words in one synonym group. -/
def areSynonyms (a b : String) : Bool :=
  SYNONYM_GROUPS.any (fun group => group.contains a && group.contains b)

/-- Source `areSimilarKeyPoints`: weighted direct/stem/synonym overlap of
significant words, measured against the smaller word set, threshold 0.3.
The for-loops with break count, for each word of the first argument, whether
some distinct word of the second argument matches; this is the filter below.
The source computes `directOverlap + 0.8*stemOverlap + 0.7*conceptOverlap`
divided by `minWords` and compares against 0.3; because rational arithmetic
does not reduce in the Lean kernel, the comparison is stated multiplied out
by the positive denominator `10 * minWords`, which is exact; the theorem
`areSimilarKeyPoints_spec` proves it equal to the literal rational form. -/
def areSimilarKeyPoints (a b : String) : Bool :=
  let wordsA := getSignificantWords a
  let wordsB := getSignificantWords b
  if wordsA.length = 0 ∨ wordsB.length = 0 then false
  else
    let directOverlap := (wordsA.filter (fun w => wordsB.contains w)).length
    let stemOverlap :=
      (wordsA.filter (fun wA => wordsB.any (fun wB => wA != wB && shareWordStem wA wB))).length
    let conceptOverlap :=
      (wordsA.filter (fun wA => wordsB.any (fun wB => wA != wB && areSynonyms wA wB))).length
    let minWords := min wordsA.length wordsB.length
    decide (3 * minWords ≤ 10 * directOverlap + 8 * stemOverlap + 7 * conceptOverlap)

/-- Search mode union type (`SearchMode`). -/
inductive SearchMode
  | memory
  | search
  deriving Repr, DecidableEq

/-- Citation from web search (`SearchCitation`). -/
structure SearchCitation where
  url : String
  title : String
  deriving Repr, DecidableEq

/-- Context snippet around a brand mention (`BrandMentionContext`). -/
structure BrandMentionContext where
  position : ℕ
  snippet : String
  sentiment : Sentiment
  deriving Repr, DecidableEq

/-- Brand-mention statistics record (`BrandMentionStats`); the
`standardDeviation` field of the source is omitted because its value is
irrational (a square root) and no claim mentions it. -/
structure BrandMentionStats where
  total : ℚ
  min : ℚ
  max : ℚ
  average : ℚ
  variance : ℚ
  allContexts : List BrandMentionContext
  deriving Repr, DecidableEq

/-- Source `calculateConfidenceScore`: weighted score from semantic overlap,
brand-mention variance and core-message count, rounded then clamped. -/
def calculateConfidenceScore (semanticOverlap : ℚ) (brandStats : BrandMentionStats)
    (coreMessagesCount : ℕ) : ℤ :=
  let overlapScore := semanticOverlap
  let maxVariance : ℚ := 5
  let varianceScore := max 0 (100 - (brandStats.variance / maxVariance) * 100)
  let coreScore : ℚ := min 100 ((coreMessagesCount : ℚ) * 20)
  let confidence := roundJS (overlapScore * (4/10) + varianceScore * (3/10) + coreScore * (3/10))
  min 100 (max 0 confidence)

/-- One LLM response record (`ResponseData`). -/
structure ResponseData where
  iteration : ℕ
  content : String
  length : ℕ
  estimatedTokens : ℕ
  brandMentions : ℕ
  brandMentionContexts : List BrandMentionContext
  keyPoints : List String
  sentiment : Sentiment
  latencyMs : ℕ
  timestamp : String
  searchMode : Option SearchMode
  citations : Option (List SearchCitation)
  deriving Repr, DecidableEq

/-- A variable (30 to 80 percent) message with its rounded frequency
percentage and sorted appearance pattern (`VariableMessage`). -/
structure VariableMessage where
  message : String
  frequency : ℤ
  appearancePattern : List ℕ
  deriving Repr, DecidableEq

/-- Source constant `CORE_MESSAGE_THRESHOLD` (0.8). -/
def CORE_MESSAGE_THRESHOLD : ℚ := 8/10

/-- Source constant `VARIABLE_MESSAGE_THRESHOLD` (0.3). -/
def VARIABLE_MESSAGE_THRESHOLD : ℚ := 3/10

/-- Stable insertion into a sorted list: `keepBefore y x` says the already
placed element `y` stays in front of the incoming `x` (a JS comparator
result of at most 0). -/
def stableInsert (keepBefore : α → α → Bool) (x : α) : List α → List α
  | [] => [x]
  | y :: ys => if keepBefore y x then y :: stableInsert keepBefore x ys else x :: y :: ys

/-- Stable insertion sort modelling JS `Array.prototype.sort` (stable since
ES2019): elements are inserted left to right, each passing over exactly the
elements the comparator keeps in front of it, so ties keep source order. -/
def stableSort (keepBefore : α → α → Bool) (l : List α) : List α :=
  l.foldl (fun acc x => stableInsert keepBefore x acc) []

/-- JS sort with an ascending numeric key comparator `(a, b) => k a - k b`. -/
def jsSortAsc (key : α → ℤ) (l : List α) : List α :=
  stableSort (fun y x => decide (key y ≤ key x)) l

/-- JS sort with a descending numeric key comparator `(a, b) => k b - k a`. -/
def jsSortDesc (key : α → ℤ) (l : List α) : List α :=
  stableSort (fun y x => decide (key x ≤ key y)) l

/-- JS `Set.add`: append if not already present. -/
def addIter (s : List ℕ) (i : ℕ) : List ℕ :=
  if i ∈ s then s else s ++ [i]

/-- Scan the cluster map in insertion order; at the first existing key
similar to the incoming normalized key point, add the iteration to that
cluster and stop (the for-of loop with break of `classifyKeyMessages`). -/
def addToFirstSimilar : List (String × List ℕ) → String → ℕ → Option (List (String × List ℕ))
  | [], _, _ => none
  | (k, s) :: rest, normalized, iter =>
    if areSimilarKeyPoints normalized k then some ((k, addIter s iter) :: rest)
    else
      match addToFirstSimilar rest normalized iter with
      | some rest2 => some ((k, s) :: rest2)
      | none => none

/-- JS `Map.set`: replace the value at an existing key in place, keeping
its position, else append the new entry. -/
def mapSet : List (String × List ℕ) → String → List ℕ → List (String × List ℕ)
  | [], k, v => [(k, v)]
  | (k0, v0) :: rest, k, v =>
    if k0 = k then (k0, v) :: rest else (k0, v0) :: mapSet rest k v

/-- One key point of iteration `iter` entering the cluster map: join the
first similar cluster, else `Map.set` a fresh singleton iteration set. -/
def addKeyPoint (m : List (String × List ℕ)) (normalized : String) (iter : ℕ) :
    List (String × List ℕ) :=
  match addToFirstSimilar m normalized iter with
  | some m2 => m2
  | none => mapSet m normalized [iter]

/-- The cluster-building loop of `classifyKeyMessages`: for each response
`i` (0-based) and each of its key points, normalize it and insert it with
iteration index `i + 1`; JS `Map` and `Set` are insertion-ordered lists. -/
def buildKeyPointFrequency (responses : List ResponseData) : List (String × List ℕ) :=
  responses.enum.foldl
    (fun m p => p.2.keyPoints.foldl
      (fun m2 kp => addKeyPoint m2 (normalizeKeyPoint kp) (p.1 + 1)) m)
    []

/-- The result record of `classifyKeyMessages`. -/
structure ClassifiedMessages where
  coreStableMessages : List String
  variableMessages : List VariableMessage
  outliers : List String
  keyPointFrequency : List (String × ℕ)
  deriving Repr, DecidableEq

/-- The bucket loop of `classifyKeyMessages`: every cluster is recorded in
the frequency map with its iteration count, and lands in core (frequency at
least 0.8), variable (at least 0.3 and below 0.8, with rounded percentage
and ascending appearance pattern) or outliers. The JS comparisons
`count/T >= 0.8` and `>= 0.3` are stated multiplied out by the positive
denominator `10*T` (exact), and `Math.round((count/T)*100)` is the exact
integer `(200*count + T) / (2*T)`; the claim theorems below prove these
agree with the literal rational forms. One fold step: -/
def classifyStep (totalIterations : ℕ) (acc : ClassifiedMessages)
    (p : String × List ℕ) : ClassifiedMessages :=
  let count := p.2.length
  if 8 * totalIterations ≤ 10 * count then
    { acc with
      coreStableMessages := acc.coreStableMessages ++ [p.1],
      keyPointFrequency := acc.keyPointFrequency ++ [(p.1, count)] }
  else if 3 * totalIterations ≤ 10 * count then
    { acc with
      variableMessages := acc.variableMessages ++
        [⟨p.1, (((200 * count + totalIterations) / (2 * totalIterations) : ℕ) : ℤ),
          jsSortAsc (fun n => (n : ℤ)) p.2⟩],
      keyPointFrequency := acc.keyPointFrequency ++ [(p.1, count)] }
  else
    { acc with
      outliers := acc.outliers ++ [p.1],
      keyPointFrequency := acc.keyPointFrequency ++ [(p.1, count)] }

/-- The bucket loop folded over the cluster map. -/
def classifyBuckets (kpf : List (String × List ℕ)) (totalIterations : ℕ) :
    ClassifiedMessages :=
  kpf.foldl (classifyStep totalIterations) ⟨[], [], [], []⟩

/-- Source `classifyKeyMessages`: cluster key points across responses by
similarity, then bucket each cluster by appearance frequency. -/
def classifyKeyMessages (responses : List ResponseData) : ClassifiedMessages :=
  classifyBuckets (buildKeyPointFrequency responses) responses.length

/-- Sentence-terminal punctuation class of the split regex of
`extractKeyPoints`. -/
def isSentenceTerminal (c : Char) : Bool :=
  c = '.' || c = '!' || c = '?'

/-- JS `String.split` on a character-class-plus regex: split at every
maximal nonempty run of separator characters, keeping (possibly empty)
leading and trailing pieces. -/
def splitRuns (p : Char → Bool) : List Char → List (List Char)
  | [] => [[]]
  | c :: cs =>
    let r := splitRuns p cs
    if p c then
      if (match cs with | [] => false | d :: _ => p d) then r
      else [] :: r
    else
      match r with
      | [] => [[c]]
      | h :: t => (c :: h) :: t

/-- JS `String.includes`: substring containment. -/
def containsSubstr : List Char → List Char → Bool
  | [], pat => headMatch pat []
  | c :: cs, pat => headMatch pat (c :: cs) || containsSubstr cs pat

/-- The percentage test of `extractKeyPoints` (a digit immediately
followed by a percent sign somewhere in the sentence). -/
def hasDigitPercent : List Char → Bool
  | c :: d :: rest => (c.isDigit && d = '%') || hasDigitPercent (d :: rest)
  | _ => false

/-- The currency test of `extractKeyPoints` (a dollar sign immediately
followed by a digit or comma somewhere in the sentence). -/
def hasMoneyPattern : List Char → Bool
  | c :: d :: rest => (c = '$' && (d.isDigit || d = ',')) || hasMoneyPattern (d :: rest)
  | _ => false

/-- The sentence scoring of `extractKeyPoints`: summed weighted hits of the
importance keywords on the lower-cased sentence, plus the percentage and
currency patterns on the raw sentence. -/
def scoreKeyPointSentence (sentence : String) : ℕ :=
  let lower := sentence.data.map Char.toLower
  (if containsSubstr lower "important".data then 2 else 0)
  + (if containsSubstr lower "key".data then 2 else 0)
  + (if containsSubstr lower "critical".data then 2 else 0)
  + (if containsSubstr lower "essential".data then 2 else 0)
  + (if containsSubstr lower "recommend".data then 3 else 0)
  + (if containsSubstr lower "should".data then 1 else 0)
  + (if containsSubstr lower "must".data then 2 else 0)
  + (if containsSubstr lower "benefit".data then 1 else 0)
  + (if containsSubstr lower "advantage".data then 1 else 0)
  + (if containsSubstr lower "best".data then 2 else 0)
  + (if containsSubstr lower "leading".data then 2 else 0)
  + (if containsSubstr lower "top".data then 1 else 0)
  + (if hasDigitPercent sentence.data then 2 else 0)
  + (if hasMoneyPattern sentence.data then 2 else 0)

/-- A scored sentence of `extractKeyPoints`. -/
structure ScoredSentence where
  sentence : String
  score : ℕ
  deriving Repr, DecidableEq

/-- Source `extractKeyPoints`: split into sentences on terminal
punctuation, trim, keep lengths strictly between 20 and 300, score, sort
descending by score (JS sort, stable) and return the top 10 sentences. -/
def extractKeyPoints (response : String) : List String :=
  let sentences :=
    ((splitRuns isSentenceTerminal response.data).map
        (fun s => String.mk (trimJS s))).filter
      (fun s => decide (20 < s.length) && decide (s.length < 300))
  let scored := sentences.map
    (fun sentence => ScoredSentence.mk sentence (scoreKeyPointSentence sentence))
  ((jsSortDesc (fun item => (item.score : ℤ)) scored).take 10).map
    (fun item => item.sentence)

/-- Separator class of the brand-name split regex (whitespace, hyphen,
underscore, ampersand). -/
def brandSeparator (c : Char) : Bool :=
  isWsJS c || c = '-' || c = '_' || c = '&'

/-- The fixed abbreviation-expansion table of `generateBrandVariations`. -/
def abbreviationExpansions (w : String) : List String :=
  if w = "vw" then ["volkswagen", "volkswagen group", "vw group"]
  else if w = "volkswagen" then ["vw", "vw group", "volkswagen group"]
  else if w = "bmw" then ["bayerische motoren werke"]
  else if w = "gm" then ["general motors"]
  else if w = "hp" then ["hewlett packard", "hewlett-packard"]
  else if w = "ibm" then ["international business machines"]
  else if w = "ge" then ["general electric"]
  else []

/-- The corporate suffixes of the suffix patterns of
`generateBrandVariations` (each matched as a trailing space plus the
suffix, case-insensitively). -/
def SUFFIX_WORDS : List String :=
  ["group", "corp", "inc", "ltd", "llc", "sa", "ag", "gmbh"]

/-- Does `s` end with a space followed by `suf`, case-insensitively? -/
def endsWithSpaceSuffixCI (s suf : List Char) : Bool :=
  headMatch ((' ' :: suf).map Char.toLower).reverse (s.map Char.toLower).reverse

/-- Source `generateBrandVariations`: the trimmed name, its words of
length at least 2, fixed abbreviation expansions, and the name with a
corporate suffix stripped; deduplicated in insertion order (JS `Set`) and
filtered to length at least 2. -/
def generateBrandVariations (brandName : String) : List String :=
  let normalized := String.mk (trimJS brandName.data)
  if normalized.length = 0 then []
  else
    let v1 := insertUnique [] normalized
    let words := ((splitRuns brandSeparator normalized.data).map String.mk).filter
      (fun w => decide (0 < w.length))
    let v2 := words.foldl (fun vs w => if 2 ≤ w.length then insertUnique vs w else vs) v1
    let v3 := words.foldl (fun vs w =>
      (abbreviationExpansions (String.mk (w.data.map Char.toLower))).foldl insertUnique vs) v2
    let v4 := SUFFIX_WORDS.foldl (fun vs suf =>
      if endsWithSpaceSuffixCI normalized.data suf.data then
        let withoutSuffix :=
          String.mk (trimJS (normalized.data.take (normalized.length - (suf.length + 1))))
        if 2 ≤ withoutSuffix.length then insertUnique vs withoutSuffix else vs
      else vs) v3
    v4.filter (fun v => decide (2 ≤ v.length))

/-- Case-insensitive verbatim match at the head of a list. -/
def headMatchCI : List Char → List Char → Bool
  | [], _ => true
  | _ :: _, [] => false
  | p :: ps, c :: cs => (p.toLower = c.toLower) && headMatchCI ps cs

/-- After a match of the literal `v`, is the following position a word
boundary (parity change of word-character-ness, the regex b)? Lower-casing
does not change word-character-ness, so the last character of `v` stands in
for the matched text character. -/
def brandBoundaryAfter (v text : List Char) : Bool :=
  let lastIsWord := match v.getLast? with | some d => isWordChar d | none => false
  match text.drop v.length with
  | [] => lastIsWord
  | e :: _ => lastIsWord != isWordChar e

/-- Match positions of the regex `\b v \b` (a literal after escaping,
flags gi) in a text: scan left to right; a match needs a word boundary on
both sides; scanning resumes right after each match (`lastIndex`). -/
def brandMatchPositionsAux (v : List Char) : ℕ → Bool → ℕ → List Char → List ℕ
  | 0, _, _, _ => []
  | _ + 1, _, _, [] => []
  | fuel + 1, prevIsWord, pos, c :: cs =>
    if v = [] then []
    else if (prevIsWord != isWordChar c) && headMatchCI v (c :: cs)
        && brandBoundaryAfter v (c :: cs) then
      pos :: brandMatchPositionsAux v fuel
        (match v.getLast? with | some d => isWordChar d | none => prevIsWord)
        (pos + v.length) ((c :: cs).drop v.length)
    else
      brandMatchPositionsAux v fuel (isWordChar c) (pos + 1) cs

/-- Entry point with fuel fixed to the text length. -/
def brandMatchPositions (v text : List Char) : List ℕ :=
  brandMatchPositionsAux v text.length false 0 text

/-- Source `analyzeSnippetSentiment`: the lightweight snippet variant
using plain substring containment and a strict majority threshold. -/
def analyzeSnippetSentiment (snippet : String) : Sentiment :=
  let lower := snippet.data.map Char.toLower
  let positiveScore := POSITIVE_INDICATORS.foldl
    (fun acc w => if containsSubstr lower w.data then acc + 1 else acc) (0 : ℕ)
  let negativeScore := NEGATIVE_INDICATORS.foldl
    (fun acc w => if containsSubstr lower w.data then acc + 1 else acc) (0 : ℕ)
  if positiveScore > negativeScore then .positive
  else if negativeScore > positiveScore then .negative
  else .neutral

/-- Build one mention context of `extractBrandMentions`: the snippet is the
text from 80 characters before the match to 80 after, trimmed, with
ellipsis markers where truncated, and its snippet sentiment. -/
def buildContext (response : String) (pos len : ℕ) : BrandMentionContext :=
  let start := pos - 80
  let endd := min response.length (pos + len + 80)
  let snippet0 := String.mk (trimJS ((response.data.drop start).take (endd - start)))
  let snippet1 := if 0 < start then "..." ++ snippet0 else snippet0
  let snippet2 := if endd < response.length then snippet1 ++ "..." else snippet1
  ⟨pos, snippet2, analyzeSnippetSentiment snippet2⟩

/-- One match event of `extractBrandMentions`: skip it when an already
recorded position is within 10 characters, else record the position and
push its context. -/
def mentionStep (response : String) (state : List ℕ × List BrandMentionContext)
    (ev : ℕ × ℕ) : List ℕ × List BrandMentionContext :=
  if state.1.any (fun e => decide (((e : ℤ) - (ev.1 : ℤ)).natAbs < 10)) then state
  else (state.1 ++ [ev.1], state.2 ++ [buildContext response ev.1 ev.2])

/-- Source `extractBrandMentions`: empty inputs give no contexts; else all
word-boundary matches of every generated brand variation are processed in
order with nearby-duplicate suppression, and the contexts are sorted by
ascending position. -/
def extractBrandMentions (response brandName : String) : List BrandMentionContext :=
  if brandName.length = 0 ∨ response.length = 0 then []
  else
    let variations := generateBrandVariations brandName
    let contexts := (variations.foldl (fun st v =>
        (brandMatchPositions v.data response.data).foldl
          (fun st2 pos => mentionStep response st2 (pos, v.length)) st)
      ([], [])).2
    jsSortAsc (fun c => (c.position : ℤ)) contexts

/-- Brand-match confidence tiers (`BrandConfidence`). -/
inductive BrandConfidence
  | high
  | medium
  | low
  deriving Repr, DecidableEq

/-- A detected brand with its position span (`DetectedBrand`). -/
structure DetectedBrand where
  name : String
  normalized : String
  confidence : BrandConfidence
  startIndex : ℕ
  endIndex : ℕ
  deriving Repr, DecidableEq

/-- The constructed state of a `BrandDetector`: the high-confidence set,
the ignored-terms set, and the lowercase-to-original brand map. The
`brands.json` data file is external to the sources, so the detector is
parametrized by this state instead of a fixed database. -/
structure BrandDetector where
  highConfidenceSet : List String
  ignoredTermsSet : List String
  normalizedMap : List (String × String)
  deriving Repr, DecidableEq

/-- JS `String.toLowerCase` (ASCII range). -/
def lowerStr (s : String) : String :=
  String.mk (s.data.map Char.toLower)

/-- JS `Map.get` on the association list. -/
def mapGet (m : List (String × String)) (k : String) : Option String :=
  (m.find? (fun p => decide (p.1 = k))).map Prod.snd

/-- Source `BrandDetector.getConfidence`: high if the canonical name is in
the high-confidence set, low if the lower-cased input is an ignored term,
medium otherwise; none when unknown. -/
def getConfidence (d : BrandDetector) (text : String) : Option BrandConfidence :=
  match mapGet d.normalizedMap (lowerStr text) with
  | none => none
  | some normalized =>
    if d.highConfidenceSet.contains normalized then some .high
    else if d.ignoredTermsSet.contains (lowerStr text) then some .low
    else some .medium

/-- Source `BrandDetector.isBrand`: known canonical name, case-insensitive. -/
def isBrand (d : BrandDetector) (text : String) : Bool :=
  (mapGet d.normalizedMap (lowerStr text)).isSome

/-- Character class of the tokenizer regex (word characters, dot, hyphen). -/
def isTokenChar (c : Char) : Bool :=
  isWordChar c || c = '.' || c = '-'

/-- A token with its position span, as produced by the tokenizer. -/
structure Token where
  text : String
  startIndex : ℕ
  endIndex : ℕ
  deriving Repr, DecidableEq

/-- Source `BrandDetector.tokenize`: maximal runs of token characters with
their start and end offsets. -/
def tokenizeAux : ℕ → ℕ → List Char → List Token
  | 0, _, _ => []
  | _ + 1, _, [] => []
  | fuel + 1, pos, c :: cs =>
    if isTokenChar c then
      let run := (c :: cs).takeWhile isTokenChar
      Token.mk (String.mk run) pos (pos + run.length) ::
        tokenizeAux fuel (pos + run.length) ((c :: cs).drop run.length)
    else
      tokenizeAux fuel (pos + 1) cs

/-- Entry point with fuel fixed to the text length. -/
def tokenize (text : List Char) : List Token :=
  tokenizeAux text.length 0 text

/-- Numeric confidence levels of `meetsMinConfidence`. -/
def confidenceLevel : BrandConfidence → ℕ
  | .high => 3
  | .medium => 2
  | .low => 1

/-- Source `BrandDetector.meetsMinConfidence`. -/
def meetsMinConfidence (c minC : BrandConfidence) : Bool :=
  confidenceLevel minC ≤ confidenceLevel c

/-- One candidate span of the detection loop of `detectBrands`: the `len`
tokens starting at token index `i`, joined by single spaces; on a database
hit with sufficient confidence and a span not yet present, the detection
is appended. -/
def detectCandidateStep (d : BrandDetector) (minConfidence : BrandConfidence)
    (words : List Token) (i : ℕ) (det2 : List DetectedBrand) (len : ℕ) :
    List DetectedBrand :=
  let seg := (words.drop i).take len
  let candidate := String.intercalate " " (seg.map (fun t => t.text))
  match mapGet d.normalizedMap (lowerStr candidate) with
  | none => det2
  | some normalized =>
    match getConfidence d normalized with
    | none => det2
    | some confidence =>
      if meetsMinConfidence confidence minConfidence then
        match seg.head?, seg.getLast? with
        | some tFirst, some tLast =>
          if det2.any (fun b =>
              decide (b.startIndex = tFirst.startIndex) &&
              decide (b.endIndex = tLast.endIndex)) then det2
          else det2 ++
            [DetectedBrand.mk candidate normalized confidence
              tFirst.startIndex tLast.endIndex]
        | _, _ => det2
      else det2

/-- Source `BrandDetector.detectBrands`: for every token position try
spans of 1, 2 and 3 tokens, dedup by exact span only, filter by minimum
confidence, sort by start offset ascending and cap the result count
(`maxResults`, `none` for the default Infinity). -/
def detectBrands (d : BrandDetector) (text : String)
    (minConfidence : BrandConfidence) (maxResults : Option ℕ) :
    List DetectedBrand :=
  let words := tokenize text.data
  let detected := (List.range words.length).foldl (fun det i =>
    (List.range' 1 (min 3 (words.length - i))).foldl
      (detectCandidateStep d minConfidence words i) det) []
  let sorted := jsSortAsc (fun b => (b.startIndex : ℤ)) detected
  match maxResults with
  | none => sorted
  | some k => sorted.take k

/-- Header pass of `cleanResponse` (per line start, strip 1 to 6 hashes
and following whitespace; `atStart` says whether the scan position is a
line start of the original text, which after a match depends on whether
the consumed whitespace ended with a newline). -/
def stripHeadersAux : ℕ → Bool → List Char → List Char
  | 0, _, _ => []
  | _ + 1, _, [] => []
  | fuel + 1, atStart, c :: cs =>
    if atStart && c = '#' then
      let hashes := min 6 ((c :: cs).takeWhile (fun d => d = '#')).length
      let afterHashes := (c :: cs).drop hashes
      let ws := afterHashes.takeWhile isWsJS
      let rest := afterHashes.dropWhile isWsJS
      stripHeadersAux fuel (ws.getLastD '#' = '\n') rest
    else
      c :: stripHeadersAux fuel (c = '\n') cs

/-- Entry point for the header pass. -/
def stripHeaders (l : List Char) : List Char :=
  stripHeadersAux l.length true l

/-- Lazy search for the closing double marker of the bold and double
underscore regexes: the capture grows one non-newline character at a time
until a double marker follows a nonempty capture. -/
def findClose2 (m : Char) : ℕ → List Char → List Char → Option (List Char × List Char)
  | 0, _, _ => none
  | _ + 1, _, [] => none
  | fuel + 1, acc, c :: cs =>
    if c = m && (match cs with | d :: _ => decide (d = m) | [] => false) && !acc.isEmpty then
      some (acc.reverse, cs.drop 1)
    else if c = '\n' then none
    else findClose2 m fuel (c :: acc) cs

/-- Emphasis pass for a doubled marker (bold and double underscore): a
double marker with a lazily matched nonempty single-line capture is
replaced by the capture; otherwise the scan advances one character. -/
def stripPair2 (m : Char) : ℕ → List Char → List Char
  | 0, _ => []
  | _ + 1, [] => []
  | fuel + 1, c :: cs =>
    if c = m && (match cs with | d :: _ => decide (d = m) | [] => false) then
      match findClose2 m cs.length [] (cs.drop 1) with
      | some (capture, rest) => capture ++ stripPair2 m fuel rest
      | none => c :: stripPair2 m fuel cs
    else
      c :: stripPair2 m fuel cs

/-- Lazy search for the closing single marker of the italic and single
underscore regexes. -/
def findClose1 (m : Char) : ℕ → List Char → List Char → Option (List Char × List Char)
  | 0, _, _ => none
  | _ + 1, _, [] => none
  | fuel + 1, acc, c :: cs =>
    if c = m && !acc.isEmpty then some (acc.reverse, cs)
    else if c = '\n' then none
    else findClose1 m fuel (c :: acc) cs

/-- Emphasis pass for a single marker (italic and single underscore). -/
def stripPair1 (m : Char) : ℕ → List Char → List Char
  | 0, _ => []
  | _ + 1, [] => []
  | fuel + 1, c :: cs =>
    if c = m then
      match findClose1 m cs.length [] cs with
      | some (capture, rest) => capture ++ stripPair1 m fuel rest
      | none => c :: stripPair1 m fuel cs
    else
      c :: stripPair1 m fuel cs

/-- Bullet pass of `cleanResponse`: at a line start, leading whitespace
followed by a hyphen or asterisk and trailing whitespace is removed. -/
def stripBulletsAux : ℕ → Bool → List Char → List Char
  | 0, _, _ => []
  | _ + 1, _, [] => []
  | fuel + 1, atStart, c :: cs =>
    if atStart then
      let ws := (c :: cs).takeWhile isWsJS
      match (c :: cs).dropWhile isWsJS with
      | m :: rest2 =>
        if m = '-' || m = '*' then
          let ws2 := rest2.takeWhile isWsJS
          stripBulletsAux fuel (ws2.getLastD m = '\n') (rest2.dropWhile isWsJS)
        else
          ws ++ m :: stripBulletsAux fuel (m = '\n') rest2
      | [] => ws
    else
      c :: stripBulletsAux fuel (c = '\n') cs

/-- Entry point for the bullet pass. -/
def stripBullets (l : List Char) : List Char :=
  stripBulletsAux l.length true l

/-- Numbered-list pass of `cleanResponse`: at a line start, leading
whitespace, one or more digits, a dot and trailing whitespace are
removed. -/
def stripNumberedAux : ℕ → Bool → List Char → List Char
  | 0, _, _ => []
  | _ + 1, _, [] => []
  | fuel + 1, atStart, c :: cs =>
    if atStart then
      let ws := (c :: cs).takeWhile isWsJS
      let rest := (c :: cs).dropWhile isWsJS
      let digits := rest.takeWhile Char.isDigit
      match rest.dropWhile Char.isDigit with
      | '.' :: rest3 =>
        if digits.isEmpty then
          ws ++ '.' :: stripNumberedAux fuel false rest3
        else
          let ws2 := rest3.takeWhile isWsJS
          stripNumberedAux fuel (ws2.getLastD '.' = '\n') (rest3.dropWhile isWsJS)
      | m :: rest3 => ws ++ digits ++ m :: stripNumberedAux fuel (m = '\n') rest3
      | [] => ws ++ digits
    else
      c :: stripNumberedAux fuel (c = '\n') cs

/-- Entry point for the numbered-list pass. -/
def stripNumbered (l : List Char) : List Char :=
  stripNumberedAux l.length true l

/-- The backtick character (written by code so that the source file itself
contains no backtick). -/
def backtickChar : Char := '\x60'

/-- Lazy search for the closing fence of the code-block regex: the first
triple backtick (the capture may be empty and may span lines). -/
def findFenceClose : ℕ → List Char → Option (List Char)
  | 0, _ => none
  | _ + 1, [] => none
  | fuel + 1, c :: cs =>
    if c = backtickChar && headMatch [backtickChar, backtickChar] cs then
      some (cs.drop 2)
    else
      findFenceClose fuel cs

/-- Code-block pass of `cleanResponse`: a fenced block up to the earliest
closing triple backtick is removed entirely. -/
def stripCodeBlocksAux : ℕ → List Char → List Char
  | 0, _ => []
  | _ + 1, [] => []
  | fuel + 1, c :: cs =>
    if c = backtickChar && headMatch [backtickChar, backtickChar] cs then
      match findFenceClose cs.length (cs.drop 2) with
      | some rest => stripCodeBlocksAux fuel rest
      | none => c :: stripCodeBlocksAux fuel cs
    else
      c :: stripCodeBlocksAux fuel cs

/-- Entry point for the code-block pass. -/
def stripCodeBlocks (l : List Char) : List Char :=
  stripCodeBlocksAux l.length l

/-- Inline-code pass of `cleanResponse`: a backtick pair around a nonempty
backtick-free capture is replaced by the capture. -/
def stripInlineCodeAux : ℕ → List Char → List Char
  | 0, _ => []
  | _ + 1, [] => []
  | fuel + 1, c :: cs =>
    if c = backtickChar then
      let capture := cs.takeWhile (fun d => !(d = backtickChar))
      match cs.dropWhile (fun d => !(d = backtickChar)) with
      | d :: rest =>
        if !capture.isEmpty && d = backtickChar then
          capture ++ stripInlineCodeAux fuel rest
        else
          c :: stripInlineCodeAux fuel cs
      | [] => c :: stripInlineCodeAux fuel cs
    else
      c :: stripInlineCodeAux fuel cs

/-- Entry point for the inline-code pass. -/
def stripInlineCode (l : List Char) : List Char :=
  stripInlineCodeAux l.length l

/-- Collapse every maximal run of the target character to a single copy
(the regex replaces runs of length at least 2 by one, leaving single
occurrences alone, which has the same effect on every run). -/
def collapseChar (t : Char) : Bool → List Char → List Char
  | _, [] => []
  | inRun, c :: cs =>
    if c = t then (if inRun then [] else [c]) ++ collapseChar t true cs
    else c :: collapseChar t false cs

/-- Source `cleanResponse`: strip markdown headers, bold and italic
markers, underscore emphasis, bullet and numbered list markers, code
blocks and inline code, collapse repeated newlines and spaces, and trim. -/
def cleanResponse (text : String) : String :=
  let c1 := stripHeaders text.data
  let c2 := stripPair2 '*' c1.length c1
  let c3 := stripPair1 '*' c2.length c2
  let c4 := stripPair2 '_' c3.length c3
  let c5 := stripPair1 '_' c4.length c4
  let c6 := stripBullets c5
  let c7 := stripNumbered c6
  let c8 := stripCodeBlocks c7
  let c9 := stripInlineCode c8
  let c10 := collapseChar '\n' false c9
  let c11 := collapseChar ' ' false c10
  String.mk (trimJS c11)

/-- The characters that can trigger a markdown pass of `cleanResponse`
(hash, asterisk, hyphen, underscore, backtick), used to state the amended
idempotence claim. -/
def isMarkdownMarker (c : Char) : Bool :=
  c = '#' || c = '*' || c = '-' || c = '_' || c = backtickChar
/-- Source `estimateTokenCount`: 0 for falsy text, otherwise
`Math.ceil(length / 4)`. -/
def estimateTokenCount (text : String) : ℕ :=
  if text = "" then 0 else (text.length + 3) / 4

/-- Source `calculateMean`. -/
def calculateMean (values : List ℚ) : ℚ :=
  if values.length = 0 then 0 else values.sum / (values.length : ℚ)

/-- Source `calculateVariance`. -/
def calculateVariance (values : List ℚ) : ℚ :=
  if values.length = 0 then 0
  else
    let mean := calculateMean values
    (values.map (fun v => (v - mean) * (v - mean))).sum / (values.length : ℚ)

/-- Source `calculateSemanticOverlap`: the `Set` of significant words is
the deduplicated insertion-order list, so intersection and union sizes are
the lengths below. -/
def calculateSemanticOverlap (text1 text2 : String) : ℤ :=
  let words1 := getSignificantWords text1
  let words2 := getSignificantWords text2
  if words1.length = 0 ∨ words2.length = 0 then 0
  else
    let intersection := words1.filter (fun w => words2.contains w)
    let union := dedupFirst (words1 ++ words2)
    roundJS (((intersection.length : ℚ) / (union.length : ℚ)) * 100)

/-- The double loop of `calculateAverageOverlap`: sum of pairwise overlaps
over the pairs i < j. -/
def pairOverlapSum : List ResponseData → ℤ
  | [] => 0
  | r :: rest =>
    (rest.map (fun s => calculateSemanticOverlap r.content s.content)).sum +
      pairOverlapSum rest

/-- The comparison counter of the same double loop. -/
def pairCount : List ResponseData → ℕ
  | [] => 0
  | _ :: rest => rest.length + pairCount rest

/-- Source `calculateAverageOverlap`. -/
def calculateAverageOverlap (responses : List ResponseData) : ℤ :=
  if responses.length < 2 then 100
  else
    let totalOverlap := pairOverlapSum responses
    let comparisons := pairCount responses
    if 0 < comparisons then roundJS ((totalOverlap : ℚ) / (comparisons : ℚ)) else 0

/-- Minimum of a list of rationals, as `Math.min(...values)` on a nonempty
list (the empty case is guarded by the caller). -/
def listMinQ (values : List ℚ) : ℚ := values.foldl min (values.headD 0)

/-- Maximum of a list of rationals, as `Math.max(...values)` on a nonempty
list. -/
def listMaxQ (values : List ℚ) : ℚ := values.foldl max (values.headD 0)

/-- Source `calculateBrandMentionStats` (the irrational
`standardDeviation` field is omitted from the record). -/
def calculateBrandMentionStats (responses : List ResponseData) : BrandMentionStats :=
  let mentions := responses.map (fun r => (r.brandMentions : ℚ))
  let allContexts := (responses.map (fun r => r.brandMentionContexts)).flatten
  if mentions.length = 0 then
    { total := 0, min := 0, max := 0, average := 0, variance := 0, allContexts := [] }
  else
    let total := mentions.sum
    let average := calculateMean mentions
    let variance := calculateVariance mentions
    { total := total
      min := listMinQ mentions
      max := listMaxQ mentions
      average := (roundJS (average * 100) : ℚ) / 100
      variance := (roundJS (variance * 100) : ℚ) / 100
      allContexts := allContexts }

/-- Sentiment distribution record (`SentimentDistribution`). -/
structure SentimentDistribution where
  positive : ℤ
  neutral : ℤ
  negative : ℤ
  deriving Repr, DecidableEq

/-- Source `calculateSentimentDistribution`. -/
def calculateSentimentDistribution (responses : List ResponseData) :
    SentimentDistribution :=
  let total := responses.length
  if total = 0 then { positive := 0, neutral := 0, negative := 0 }
  else
    let pos := (responses.filter (fun r => decide (r.sentiment = Sentiment.positive))).length
    let neu := (responses.filter (fun r => decide (r.sentiment = Sentiment.neutral))).length
    let neg := (responses.filter (fun r => decide (r.sentiment = Sentiment.negative))).length
    { positive := roundJS ((pos : ℚ) / (total : ℚ) * 100)
      neutral := roundJS ((neu : ℚ) / (total : ℚ) * 100)
      negative := roundJS ((neg : ℚ) / (total : ℚ) * 100) }

/-- JavaScript `toFixed(1)` for the nonnegative rationals it is applied to
(round to nearest tenth, ties up). -/
def toFixed1 (q : ℚ) : String :=
  let n := (roundJS (q * 10)).toNat
  toString (n / 10) ++ "." ++ toString (n % 10)

/-- Recommendation lists (`generateRecommendations` return shape). -/
structure Recommendations where
  messagesToAdd : List String
  messagesToReinforce : List String
  opportunityGaps : List String
  deriving Repr, DecidableEq

/-- Source `generateRecommendations`; an absent or empty brand name is
falsy in the brand-visibility check. -/
def generateRecommendations (analysis : ClassifiedMessages)
    (brandStats : BrandMentionStats) (sentimentDistribution : SentimentDistribution)
    (brandName : Option String) : Recommendations :=
  let messagesToReinforce := analysis.coreStableMessages.map (fun message =>
    "Reinforce: \"" ++ message ++ "\" - This appears consistently across AI responses")
  let strengthen := analysis.variableMessages.map (fun vm =>
    "Strengthen: \"" ++ vm.message ++ "\" - Appears " ++ toString vm.frequency ++
      "% of the time, could be more consistent")
  let opportunityGaps := (analysis.outliers.take 5).map (fun message =>
    "Opportunity: \"" ++ message ++ "\" - Unique insight that competitors may be missing")
  let lowBrand := match brandName with
    | some b =>
      if ¬b = "" ∧ brandStats.average < 1 then
        ["Low brand visibility: " ++ b ++
          " is mentioned less than once on average. Strengthen brand positioning."]
      else []
    | none => []
  let inconsistent := if 2 < brandStats.variance then
      ["Inconsistent brand mentions: High variance (" ++ toFixed1 brandStats.variance ++
        ") suggests unpredictable AI perception."]
    else []
  let negativeRec := if 20 < sentimentDistribution.negative then
      ["Negative sentiment detected in " ++ toString sentimentDistribution.negative ++
        "% of responses. Review content for reputation issues."]
    else []
  { messagesToAdd := strengthen ++ lowBrand ++ inconsistent ++ negativeRec
    messagesToReinforce := messagesToReinforce
    opportunityGaps := opportunityGaps }

/-- Result of one model query (`QueryResult`); the query itself is network
input, so `analyzeStability` is parametrized by the per-iteration
outcomes. -/
structure QueryResult where
  response : String
  latencyMs : ℕ
  citations : Option (List SearchCitation)
  deriving Repr, DecidableEq

/-- One failed iteration (`IterationError`); the wrapped `Error` object
carries the same message. -/
structure IterationError where
  iteration : ℕ
  message : String
  deriving Repr, DecidableEq

/-- `StabilityResult.metadata`; the wall-clock `executionTimeMs` field is
omitted because it reads an external clock and no claim mentions it. -/
structure StabilityMetadata where
  prompt : String
  model : String
  iterations : ℕ
  brandName : Option String
  searchMode : SearchMode
  deriving Repr, DecidableEq

/-- Source `StabilityResult`. -/
structure StabilityResult where
  consistencyScore : ℤ
  semanticOverlap : ℤ
  responses : List ResponseData
  analysis : ClassifiedMessages
  brandMentions : BrandMentionStats
  sentimentDistribution : SentimentDistribution
  recommendations : Recommendations
  metadata : StabilityMetadata
  deriving Repr, DecidableEq

/-- The body of a successful iteration of `analyzeStability`: clean the
response, extract key points, sentiment and brand mentions (an absent or
empty brand name is falsy, so no mentions are extracted) and record the
`ResponseData`. The timestamp is external clock input, supplied per
iteration. -/
def buildResponseData (brandName : Option String) (searchMode : SearchMode)
    (timestamps : ℕ → String) (i : ℕ) (r : QueryResult) : ResponseData :=
  let cleanedResponse := cleanResponse r.response
  let keyPoints := extractKeyPoints cleanedResponse
  let sentiment := analyzeSentiment cleanedResponse
  let brandMentionContexts := match brandName with
    | some b => if b = "" then [] else extractBrandMentions cleanedResponse b
    | none => []
  { iteration := i
    content := r.response
    length := r.response.length
    estimatedTokens := estimateTokenCount r.response
    brandMentions := brandMentionContexts.length
    brandMentionContexts := brandMentionContexts
    keyPoints := keyPoints
    sentiment := sentiment
    latencyMs := r.latencyMs
    timestamp := timestamps i
    searchMode := some searchMode
    citations := r.citations }

/-- One pass of the iteration loop of `analyzeStability`: a success is
appended to the responses, a failure is delivered to `onError` when the
callback is supplied and logged to the console otherwise; the loop always
continues. -/
def stabilityStep (brandName : Option String) (searchMode : SearchMode)
    (onErrorSupplied : Bool) (queryResults : ℕ → Except String QueryResult)
    (timestamps : ℕ → String)
    (acc : List ResponseData × List IterationError × List IterationError) (i : ℕ) :
    List ResponseData × List IterationError × List IterationError :=
  match queryResults i with
  | Except.ok r =>
    (acc.1 ++ [buildResponseData brandName searchMode timestamps i r], acc.2.1, acc.2.2)
  | Except.error msg =>
    if onErrorSupplied then
      (acc.1, acc.2.1 ++ [{ iteration := i, message := msg }], acc.2.2)
    else
      (acc.1, acc.2.1, acc.2.2 ++ [{ iteration := i, message := msg }])

/-- Source `analyzeStability`. The network queries, timestamps and the
`onError` callback are externalized: `queryResults i` is the outcome of
the query of iteration `i` (whichever of the two model backends ran),
`timestamps i` the clock reading, and the returned triple carries the
result together with the errors delivered to `onError` and the errors
logged to the console. Progress callbacks, delays, temperature and token
limits do not affect any returned value. -/
def analyzeStability (prompt model apiKey : String) (iterations : ℕ)
    (brandName : Option String) (searchMode : SearchMode) (onErrorSupplied : Bool)
    (queryResults : ℕ → Except String QueryResult) (timestamps : ℕ → String) :
    Except String StabilityResult × List IterationError × List IterationError :=
  if apiKey = "" then (Except.error "API key is required", [], [])
  else if iterations < 1 ∨ 10 < iterations then
    (Except.error "Iterations must be between 1 and 10", [], [])
  else
    let st := (List.range' 1 iterations).foldl
      (stabilityStep brandName searchMode onErrorSupplied queryResults timestamps)
      ([], [], [])
    let responses := st.1
    if responses.length = 0 then
      (Except.error "All iterations failed - unable to complete analysis", st.2.1, st.2.2)
    else
      let semanticOverlap := calculateAverageOverlap responses
      let classification := classifyKeyMessages responses
      let brandStats := calculateBrandMentionStats responses
      let sentimentDist := calculateSentimentDistribution responses
      let confidenceScore := calculateConfidenceScore (semanticOverlap : ℚ) brandStats
        classification.coreStableMessages.length
      let recommendations :=
        generateRecommendations classification brandStats sentimentDist brandName
      (Except.ok
        { consistencyScore := confidenceScore
          semanticOverlap := semanticOverlap
          responses := responses
          analysis := classification
          brandMentions := brandStats
          sentimentDistribution := sentimentDist
          recommendations := recommendations
          metadata :=
            { prompt := prompt
              model := model
              iterations := responses.length
              brandName := brandName
              searchMode := searchMode } }, st.2.1, st.2.2)

/-- Did the query of this iteration succeed? -/
def queryOk (r : Except String QueryResult) : Bool :=
  match r with
  | Except.ok _ => true
  | Except.error _ => false

/-- Number of successful iterations among 1..iterations. -/
def successCount (queryResults : ℕ → Except String QueryResult) (iterations : ℕ) : ℕ :=
  ((List.range' 1 iterations).filter (fun i => queryOk (queryResults i))).length

/-- The failed iterations among 1..iterations, in order, with their
messages. -/
def iterationFailures (queryResults : ℕ → Except String QueryResult)
    (iterations : ℕ) : List IterationError :=
  (List.range' 1 iterations).filterMap (fun i =>
    match queryResults i with
    | Except.ok _ => none
    | Except.error m => some { iteration := i, message := m })

/-- Concrete per-iteration query outcomes (iteration 2 fails) used to
witness the stability-analysis theorem. -/
def witnessQueryResults : ℕ → Except String QueryResult := fun i =>
  if i = 2 then Except.error "boom"
  else Except.ok { response := "r", latencyMs := 5, citations := none }

/-- Concrete clock readings for the same witness. -/
def witnessTimestamps : ℕ → String := fun _ => "t"

end Rankfor

namespace Rankfor

/-- C6: the consistency score equals round(0.4·overlap + 0.3·varianceScore +
0.3·coreScore) clamped to [0,100], with varianceScore = max(0, 100 −
(variance/5)·100) and coreScore = min(100, coreCount·20). -/
theorem confidence_score_formula (semanticOverlap : ℚ) (stats : BrandMentionStats)
    (coreCount : ℕ) :
    calculateConfidenceScore semanticOverlap stats coreCount =
      min 100 (max 0 (roundJS ((4/10) * semanticOverlap
        + (3/10) * (max 0 (100 - (stats.variance / 5) * 100))
        + (3/10) * (min 100 ((coreCount : ℚ) * 20))))) := by
  unfold calculateConfidenceScore roundJS
  ring_nf

/-- Helper: the rational 1.5x comparison of the source is the integer
comparison 2·a > 3·b. -/
theorem ratpos_iff (a b : ℕ) : ((a : ℚ) > (b : ℚ) * (3/2)) ↔ 2 * a > 3 * b := by
  constructor
  · intro h
    have h2 : (3 : ℚ) * b < 2 * a := by linarith
    exact_mod_cast h2
  · intro h
    have h2 : (3 : ℚ) * b < 2 * a := by exact_mod_cast h
    linarith

/-- C7: the sentiment classifier counts whole-word case-insensitive
occurrences of the fixed indicator lists and returns positive exactly when
the positive count exceeds 1.5 times the negative count, negative exactly
in the mirrored case, and neutral otherwise. -/
theorem sentiment_classification (text : String) :
    (analyzeSentiment text = .positive ↔
      2 * sentimentScore POSITIVE_INDICATORS (text.data.map Char.toLower) >
      3 * sentimentScore NEGATIVE_INDICATORS (text.data.map Char.toLower)) ∧
    (analyzeSentiment text = .negative ↔
      2 * sentimentScore NEGATIVE_INDICATORS (text.data.map Char.toLower) >
      3 * sentimentScore POSITIVE_INDICATORS (text.data.map Char.toLower)) ∧
    (analyzeSentiment text = .neutral ↔
      (¬ 2 * sentimentScore POSITIVE_INDICATORS (text.data.map Char.toLower) >
         3 * sentimentScore NEGATIVE_INDICATORS (text.data.map Char.toLower)) ∧
      (¬ 2 * sentimentScore NEGATIVE_INDICATORS (text.data.map Char.toLower) >
         3 * sentimentScore POSITIVE_INDICATORS (text.data.map Char.toLower))) := by
  set p := sentimentScore POSITIVE_INDICATORS (text.data.map Char.toLower) with hp
  set n := sentimentScore NEGATIVE_INDICATORS (text.data.map Char.toLower) with hn
  have hps := ratpos_iff p n
  have hns := ratpos_iff n p
  unfold analyzeSentiment
  dsimp only
  rw [← hp, ← hn]
  split_ifs with h1 h2
  · refine ⟨by simp [hps.mp h1], ?_, ?_⟩
    · simp only [reduceCtorEq, false_iff]
      have := hps.mp h1
      omega
    · simp only [reduceCtorEq, false_iff]
      have := hps.mp h1
      omega
  · refine ⟨?_, by simp [hns.mp h2], ?_⟩
    · simp only [reduceCtorEq, false_iff]
      intro hc
      exact h1 (hps.mpr hc)
    · simp only [reduceCtorEq, false_iff]
      have := hns.mp h2
      omega
  · refine ⟨?_, ?_, ?_⟩
    · simp only [reduceCtorEq, false_iff]
      intro hc
      exact h1 (hps.mpr hc)
    · simp only [reduceCtorEq, false_iff]
      intro hc
      exact h2 (hns.mpr hc)
    · simp only [true_iff]
      exact ⟨fun hc => h1 (hps.mpr hc), fun hc => h2 (hns.mpr hc)⟩

/-- Helper: the similarity predicate equals the literal rational form of
the source, `0.3 <= (direct + 0.8*stem + 0.7*concept) / minWords` (when
either word set is empty the source returns false before dividing, and the
rational form also yields false since division by zero is zero in ℚ). -/
theorem areSimilarKeyPoints_spec (a b : String) :
    areSimilarKeyPoints a b =
      decide ((3 : ℚ)/10 ≤
        ((((getSignificantWords a).filter
            (fun w => (getSignificantWords b).contains w)).length : ℚ)
          + (((getSignificantWords a).filter
            (fun wA => (getSignificantWords b).any
              (fun wB => wA != wB && shareWordStem wA wB))).length : ℚ) * (8/10)
          + (((getSignificantWords a).filter
            (fun wA => (getSignificantWords b).any
              (fun wB => wA != wB && areSynonyms wA wB))).length : ℚ) * (7/10))
        / ((min (getSignificantWords a).length (getSignificantWords b).length : ℕ) : ℚ)) := by
  unfold areSimilarKeyPoints
  dsimp only
  split_ifs with h
  · rcases h with h | h
    · rw [h]
      rw [Nat.min_comm, Nat.min_zero, Nat.cast_zero, div_zero]
      simp
    · rw [h]
      rw [Nat.min_zero, Nat.cast_zero, div_zero]
      simp
  · rw [decide_eq_decide]
    push_neg at h
    have hm : (0 : ℚ) < (min (getSignificantWords a).length (getSignificantWords b).length : ℕ) := by
      have h1 := h.1
      have h2 := h.2
      have : 0 < min (getSignificantWords a).length (getSignificantWords b).length := by omega
      exact_mod_cast this
    rw [div_le_div_iff₀ (by norm_num) hm]
    constructor
    · intro hle
      have hle2 : (3 : ℚ) * (min (getSignificantWords a).length (getSignificantWords b).length : ℕ)
          ≤ 10 * ((getSignificantWords a).filter
              (fun w => (getSignificantWords b).contains w)).length
            + 8 * ((getSignificantWords a).filter
              (fun wA => (getSignificantWords b).any
                (fun wB => wA != wB && shareWordStem wA wB))).length
            + 7 * ((getSignificantWords a).filter
              (fun wA => (getSignificantWords b).any
                (fun wB => wA != wB && areSynonyms wA wB))).length := by exact_mod_cast hle
      linarith
    · intro hle
      have hle2 : (3 : ℚ) * (min (getSignificantWords a).length (getSignificantWords b).length : ℕ)
          ≤ 10 * ((getSignificantWords a).filter
              (fun w => (getSignificantWords b).contains w)).length
            + 8 * ((getSignificantWords a).filter
              (fun wA => (getSignificantWords b).any
                (fun wB => wA != wB && shareWordStem wA wB))).length
            + 7 * ((getSignificantWords a).filter
              (fun wA => (getSignificantWords b).any
                (fun wB => wA != wB && areSynonyms wA wB))).length := by linarith
      exact_mod_cast hle2

/-- Helper: the word-level stem test is symmetric. -/
theorem shareWordStem_symm (a b : String) : shareWordStem a b = shareWordStem b a := by
  unfold shareWordStem
  dsimp only
  rw [Nat.min_comm b.length a.length]
  split_ifs with h
  · rfl
  · rw [decide_eq_decide]
    exact eq_comm

/-- Helper: the word-level synonym test is symmetric. -/
theorem areSynonyms_symm (a b : String) : areSynonyms a b = areSynonyms b a := by
  unfold areSynonyms
  simp only [Bool.and_comm]

/-- Helper: `insertUnique` preserves freedom from duplicates. -/
theorem insertUnique_nodup (l : List String) (x : String) (h : l.Nodup) :
    (insertUnique l x).Nodup := by
  unfold insertUnique
  split_ifs with hx
  · exact h
  · simp [List.nodup_append, h, hx]

/-- Helper: membership after `insertUnique`. -/
theorem mem_insertUnique (l : List String) (x y : String) :
    y ∈ insertUnique l x ↔ y ∈ l ∨ y = x := by
  unfold insertUnique
  split_ifs with hx
  · constructor
    · exact fun h => Or.inl h
    · rintro (h | rfl)
      · exact h
      · exact hx
  · simp

/-- Helper: `dedupFirst` yields a duplicate-free list. -/
theorem dedupFirst_nodup (l : List String) : (dedupFirst l).Nodup := by
  unfold dedupFirst
  suffices h : ∀ acc : List String, acc.Nodup → (l.foldl insertUnique acc).Nodup from
    h [] List.nodup_nil
  induction l with
  | nil => exact fun acc h => h
  | cons x xs ih =>
    intro acc hacc
    exact ih (insertUnique acc x) (insertUnique_nodup acc x hacc)

/-- Helper: `dedupFirst` preserves membership. -/
theorem mem_dedupFirst (l : List String) (y : String) : y ∈ dedupFirst l ↔ y ∈ l := by
  unfold dedupFirst
  suffices h : ∀ acc : List String, y ∈ l.foldl insertUnique acc ↔ y ∈ acc ∨ y ∈ l by
    simpa using h []
  induction l with
  | nil => simp
  | cons x xs ih =>
    intro acc
    rw [List.foldl_cons, ih (insertUnique acc x), mem_insertUnique]
    constructor
    · rintro ((h | rfl) | h)
      · exact Or.inl h
      · exact Or.inr (by simp)
      · exact Or.inr (by simp [h])
    · rintro (h | h)
      · exact Or.inl (Or.inl h)
      · rcases List.mem_cons.mp h with rfl | h2
        · exact Or.inl (Or.inr rfl)
        · exact Or.inr h2

/-- Helper: the significant-word lists are duplicate-free. -/
theorem getSignificantWords_nodup (t : String) : (getSignificantWords t).Nodup :=
  dedupFirst_nodup _

/-- C3 counterexample: the similarity test is not symmetric. With
A = "abcdeaaaa pqrstuvwx jklmnopqr" and B = "abcdebbbb abcdecccc abcdedddd",
all three words of B share a stem with the first word of A, so B-against-A
scores 0.8 ≥ 0.3, while A-against-B scores only 0.8/3 < 0.3. -/
theorem similarity_not_symmetric :
    ¬ ∀ a b : String, areSimilarKeyPoints a b = areSimilarKeyPoints b a := by
  intro h
  have hc := h "abcdeaaaa pqrstuvwx jklmnopqr" "abcdebbbb abcdecccc abcdedddd"
  exact absurd hc (by decide)

/-- C3 amended: the similarity test is symmetric whenever no two distinct
significant words of the two key points are related by a shared stem or a
synonym group (the stem and synonym overlaps are counted over the first
argument only, which the counterexample shows breaks symmetry in general;
the word-level stem and synonym tests themselves are symmetric). -/
theorem similarity_symm_of_no_cross_relations (a b : String)
    (h : ∀ wA ∈ getSignificantWords a, ∀ wB ∈ getSignificantWords b,
      wA ≠ wB → shareWordStem wA wB = false ∧ areSynonyms wA wB = false) :
    areSimilarKeyPoints a b = areSimilarKeyPoints b a := by
  unfold areSimilarKeyPoints
  dsimp only
  have hstemA : ((getSignificantWords a).filter
      (fun wA => (getSignificantWords b).any
        (fun wB => wA != wB && shareWordStem wA wB))).length = 0 := by
    rw [List.length_eq_zero, List.filter_eq_nil_iff]
    intro wA hwA hcontra
    rw [List.any_eq_true] at hcontra
    obtain ⟨wB, hwB, hp⟩ := hcontra
    rw [Bool.and_eq_true, bne_iff_ne] at hp
    exact absurd hp.2 (by simp [(h wA hwA wB hwB hp.1).1])
  have hstemB : ((getSignificantWords b).filter
      (fun wB => (getSignificantWords a).any
        (fun wA => wB != wA && shareWordStem wB wA))).length = 0 := by
    rw [List.length_eq_zero, List.filter_eq_nil_iff]
    intro wB hwB hcontra
    rw [List.any_eq_true] at hcontra
    obtain ⟨wA, hwA, hp⟩ := hcontra
    rw [Bool.and_eq_true, bne_iff_ne] at hp
    have hf := (h wA hwA wB hwB (Ne.symm hp.1)).1
    rw [shareWordStem_symm wA wB] at hf
    exact absurd hp.2 (by simp [hf])
  have hconA : ((getSignificantWords a).filter
      (fun wA => (getSignificantWords b).any
        (fun wB => wA != wB && areSynonyms wA wB))).length = 0 := by
    rw [List.length_eq_zero, List.filter_eq_nil_iff]
    intro wA hwA hcontra
    rw [List.any_eq_true] at hcontra
    obtain ⟨wB, hwB, hp⟩ := hcontra
    rw [Bool.and_eq_true, bne_iff_ne] at hp
    exact absurd hp.2 (by simp [(h wA hwA wB hwB hp.1).2])
  have hconB : ((getSignificantWords b).filter
      (fun wB => (getSignificantWords a).any
        (fun wA => wB != wA && areSynonyms wB wA))).length = 0 := by
    rw [List.length_eq_zero, List.filter_eq_nil_iff]
    intro wB hwB hcontra
    rw [List.any_eq_true] at hcontra
    obtain ⟨wA, hwA, hp⟩ := hcontra
    rw [Bool.and_eq_true, bne_iff_ne] at hp
    have hf := (h wA hwA wB hwB (Ne.symm hp.1)).2
    rw [areSynonyms_symm wA wB] at hf
    exact absurd hp.2 (by simp [hf])
  have hdirect : ((getSignificantWords a).filter
      (fun w => (getSignificantWords b).contains w)).length =
      ((getSignificantWords b).filter
      (fun w => (getSignificantWords a).contains w)).length := by
    apply List.Perm.length_eq
    rw [List.perm_ext_iff_of_nodup
      ((getSignificantWords_nodup a).filter _)
      ((getSignificantWords_nodup b).filter _)]
    intro w
    simp only [List.mem_filter, List.elem_iff]
    exact and_comm
  by_cases hz : (getSignificantWords a).length = 0 ∨ (getSignificantWords b).length = 0
  · rw [if_pos hz, if_pos (Or.symm hz)]
  · rw [if_neg hz, if_neg (fun hc => hz (Or.symm hc))]
    rw [hstemA, hstemB, hconA, hconB, hdirect, Nat.min_comm]

/-- C3 witness: a concrete pair of key points with no cross stem or
synonym relations between distinct words, on which the amended symmetry
theorem applies. -/
theorem similarity_symm_witness :
    areSimilarKeyPoints "hello zebra" "zebra planet" =
      areSimilarKeyPoints "zebra planet" "hello zebra" :=
  similarity_symm_of_no_cross_relations "hello zebra" "zebra planet" (by decide)

/-- Helper: stable insertion is a permutation of consing. -/
theorem stableInsert_perm {α : Type} (keep : α → α → Bool) (x : α) (l : List α) :
    (stableInsert keep x l).Perm (x :: l) := by
  induction l with
  | nil => simp [stableInsert]
  | cons y ys ih =>
    unfold stableInsert
    split_ifs with hk
    · exact (ih.cons y).trans (List.Perm.swap x y ys)
    · exact List.Perm.refl _

/-- Helper: the sort fold is a permutation of the accumulator and input. -/
theorem stableSortGo_perm {α : Type} (keep : α → α → Bool) :
    ∀ (l acc : List α),
      (l.foldl (fun a x => stableInsert keep x a) acc).Perm (acc ++ l) := by
  intro l
  induction l with
  | nil => intro acc; simp
  | cons x xs ih =>
    intro acc
    rw [List.foldl_cons]
    refine (ih (stableInsert keep x acc)).trans ?_
    refine ((stableInsert_perm keep x acc).append_right xs).trans ?_
    exact List.perm_middle.symm

/-- Helper: the stable sort permutes its input. -/
theorem stableSort_perm {α : Type} (keep : α → α → Bool) (l : List α) :
    (stableSort keep l).Perm l := by
  simpa using stableSortGo_perm keep l []

/-- Helper: stable insertion preserves pairwise order for a total
transitive comparator. -/
theorem stableInsert_pairwise {α : Type} (keep : α → α → Bool)
    (htot : ∀ a b, keep a b = false → keep b a = true)
    (htrans : ∀ a b c, keep a b = true → keep b c = true → keep a c = true)
    (x : α) (l : List α) (h : l.Pairwise (fun a b => keep a b = true)) :
    (stableInsert keep x l).Pairwise (fun a b => keep a b = true) := by
  induction l with
  | nil => simp [stableInsert]
  | cons y ys ih =>
    rcases List.pairwise_cons.mp h with ⟨hy, hys⟩
    unfold stableInsert
    split_ifs with hk
    · rw [List.pairwise_cons]
      refine ⟨?_, ih hys⟩
      intro z hz
      rcases List.mem_cons.mp ((stableInsert_perm keep x ys).mem_iff.mp hz) with rfl | hz2
      · exact hk
      · exact hy z hz2
    · rw [List.pairwise_cons]
      have hxy : keep x y = true := htot y x (Bool.eq_false_iff.mpr hk)
      refine ⟨?_, List.pairwise_cons.mpr ⟨hy, hys⟩⟩
      intro z hz
      rcases List.mem_cons.mp hz with rfl | hz2
      · exact hxy
      · exact htrans x y z hxy (hy z hz2)

/-- Helper: the stable sort is pairwise ordered for a total transitive
comparator. -/
theorem stableSort_pairwise {α : Type} (keep : α → α → Bool)
    (htot : ∀ a b, keep a b = false → keep b a = true)
    (htrans : ∀ a b c, keep a b = true → keep b c = true → keep a c = true)
    (l : List α) :
    (stableSort keep l).Pairwise (fun a b => keep a b = true) := by
  unfold stableSort
  suffices hgo : ∀ (m acc : List α), acc.Pairwise (fun a b => keep a b = true) →
      (m.foldl (fun a x => stableInsert keep x a) acc).Pairwise (fun a b => keep a b = true) from
    hgo l [] List.Pairwise.nil
  intro m
  induction m with
  | nil => intro acc hacc; exact hacc
  | cons x xs ih =>
    intro acc hacc
    rw [List.foldl_cons]
    exact ih _ (stableInsert_pairwise keep htot htrans x acc hacc)

/-- Helper: the ascending JS sort permutes its input. -/
theorem jsSortAsc_perm {α : Type} (key : α → ℤ) (l : List α) :
    (jsSortAsc key l).Perm l :=
  stableSort_perm _ l

/-- Helper: the ascending JS sort is sorted by its key. -/
theorem jsSortAsc_sorted {α : Type} (key : α → ℤ) (l : List α) :
    (jsSortAsc key l).Pairwise (fun a b => key a ≤ key b) := by
  have h := stableSort_pairwise (fun y x => decide (key y ≤ key x))
    (fun a b hab => by
      rw [decide_eq_true_eq]
      rw [decide_eq_false_iff_not] at hab
      omega)
    (fun a b c hab hbc => by
      rw [decide_eq_true_eq] at hab hbc ⊢
      omega) l
  exact h.imp (fun hab => by rwa [decide_eq_true_eq] at hab)

/-- Helper: the descending JS sort permutes its input. -/
theorem jsSortDesc_perm {α : Type} (key : α → ℤ) (l : List α) :
    (jsSortDesc key l).Perm l :=
  stableSort_perm _ l

/-- Helper: the descending JS sort is reverse sorted by its key. -/
theorem jsSortDesc_sorted {α : Type} (key : α → ℤ) (l : List α) :
    (jsSortDesc key l).Pairwise (fun a b => key b ≤ key a) := by
  have h := stableSort_pairwise (fun y x => decide (key x ≤ key y))
    (fun a b hab => by
      rw [decide_eq_true_eq]
      rw [decide_eq_false_iff_not] at hab
      omega)
    (fun a b c hab hbc => by
      rw [decide_eq_true_eq] at hab hbc ⊢
      omega) l
  exact h.imp (fun hab => by rwa [decide_eq_true_eq] at hab)

/-- Helper: closed form of the bucket fold of `classifyKeyMessages`. -/
theorem classifyBuckets_go (T : ℕ) :
    ∀ (kpf : List (String × List ℕ)) (acc : ClassifiedMessages),
      kpf.foldl (classifyStep T) acc =
        ⟨acc.coreStableMessages ++
            (kpf.filter (fun p => decide (8 * T ≤ 10 * p.2.length))).map Prod.fst,
          acc.variableMessages ++
            (kpf.filter (fun p =>
              !decide (8 * T ≤ 10 * p.2.length) && decide (3 * T ≤ 10 * p.2.length))).map
              (fun p => ⟨p.1, (((200 * p.2.length + T) / (2 * T) : ℕ) : ℤ),
                jsSortAsc (fun n => (n : ℤ)) p.2⟩),
          acc.outliers ++
            (kpf.filter (fun p =>
              !decide (8 * T ≤ 10 * p.2.length) && !decide (3 * T ≤ 10 * p.2.length))).map
              Prod.fst,
          acc.keyPointFrequency ++ kpf.map (fun p => (p.1, p.2.length))⟩ := by
  intro kpf
  induction kpf with
  | nil => intro acc; simp
  | cons p ps ih =>
    intro acc
    rw [List.foldl_cons, ih]
    unfold classifyStep
    dsimp only
    split_ifs with h1 h2
    · simp [h1, List.filter_cons]
    · simp [h1, h2, List.filter_cons]
    · simp [h1, h2, List.filter_cons]

/-- Helper: closed form of `classifyBuckets`. -/
theorem classifyBuckets_eq (kpf : List (String × List ℕ)) (T : ℕ) :
    classifyBuckets kpf T =
      ⟨(kpf.filter (fun p => decide (8 * T ≤ 10 * p.2.length))).map Prod.fst,
        (kpf.filter (fun p =>
          !decide (8 * T ≤ 10 * p.2.length) && decide (3 * T ≤ 10 * p.2.length))).map
          (fun p => ⟨p.1, (((200 * p.2.length + T) / (2 * T) : ℕ) : ℤ),
            jsSortAsc (fun n => (n : ℤ)) p.2⟩),
        (kpf.filter (fun p =>
          !decide (8 * T ≤ 10 * p.2.length) && !decide (3 * T ≤ 10 * p.2.length))).map
          Prod.fst,
        kpf.map (fun p => (p.1, p.2.length))⟩ := by
  unfold classifyBuckets
  rw [classifyBuckets_go]
  simp

/-- Helper: natural division is the integer floor of rational division. -/
theorem int_floor_nat_div (a b : ℕ) : ⌊(a : ℚ) / (b : ℚ)⌋ = ((a / b : ℕ) : ℤ) := by
  rw [← Int.natCast_floor_eq_floor (by positivity), Nat.floor_div_eq_div]

/-- Helper: `Math.round` of the frequency percentage in integer form. -/
theorem roundJS_freq (c T : ℕ) (hT : 0 < T) :
    roundJS ((c : ℚ) / (T : ℚ) * 100) = (((200 * c + T) / (2 * T) : ℕ) : ℤ) := by
  unfold roundJS
  have hT0 : ((T : ℚ)) ≠ 0 := by positivity
  have harith : (c : ℚ) / (T : ℚ) * 100 + 1/2 = ((200 * c + T : ℕ) : ℚ) / ((2 * T : ℕ) : ℚ) := by
    push_cast
    field_simp
    ring
  rw [harith, int_floor_nat_div]

/-- Helper: the core threshold comparison in integer form. -/
theorem core_le_iff (c T : ℕ) (hT : 0 < T) :
    (CORE_MESSAGE_THRESHOLD ≤ (c : ℚ) / (T : ℚ)) ↔ 8 * T ≤ 10 * c := by
  unfold CORE_MESSAGE_THRESHOLD
  rw [div_le_div_iff₀ (by norm_num) (by exact_mod_cast hT)]
  constructor
  · intro h2
    have h3 : 8 * T ≤ c * 10 := by exact_mod_cast h2
    omega
  · intro h2
    have h3 : 8 * T ≤ c * 10 := by omega
    exact_mod_cast h3

/-- Helper: the variable threshold comparison in integer form. -/
theorem variable_le_iff (c T : ℕ) (hT : 0 < T) :
    (VARIABLE_MESSAGE_THRESHOLD ≤ (c : ℚ) / (T : ℚ)) ↔ 3 * T ≤ 10 * c := by
  unfold VARIABLE_MESSAGE_THRESHOLD
  rw [div_le_div_iff₀ (by norm_num) (by exact_mod_cast hT)]
  constructor
  · intro h2
    have h3 : 3 * T ≤ c * 10 := by exact_mod_cast h2
    omega
  · intro h2
    have h3 : 3 * T ≤ c * 10 := by omega
    exact_mod_cast h3

/-- Helper: the strict core threshold comparison in integer form. -/
theorem lt_core_iff (c T : ℕ) (hT : 0 < T) :
    ((c : ℚ) / (T : ℚ) < CORE_MESSAGE_THRESHOLD) ↔ 10 * c < 8 * T := by
  unfold CORE_MESSAGE_THRESHOLD
  rw [div_lt_div_iff₀ (by exact_mod_cast hT) (by norm_num)]
  constructor
  · intro h2
    have h3 : c * 10 < 8 * T := by exact_mod_cast h2
    omega
  · intro h2
    have h3 : c * 10 < 8 * T := by omega
    exact_mod_cast h3

/-- Helper: the strict variable threshold comparison in integer form. -/
theorem lt_variable_iff (c T : ℕ) (hT : 0 < T) :
    ((c : ℚ) / (T : ℚ) < VARIABLE_MESSAGE_THRESHOLD) ↔ 10 * c < 3 * T := by
  unfold VARIABLE_MESSAGE_THRESHOLD
  rw [div_lt_div_iff₀ (by exact_mod_cast hT) (by norm_num)]
  constructor
  · intro h2
    have h3 : c * 10 < 3 * T := by exact_mod_cast h2
    omega
  · intro h2
    have h3 : c * 10 < 3 * T := by omega
    exact_mod_cast h3

/-- C5: every cluster is placed in exactly the spec bucket determined by
its appearance frequency f = iterations/total: core when f ≥ 0.8, variable
when 0.3 ≤ f < 0.8 (carrying the rounded frequency percentage and the
ascending-sorted appearance pattern), outlier when f < 0.3; and with 5
iterations, 4 appearances is core, 2 is variable (40 percent), and 1 is an
outlier. -/
theorem classification_buckets :
    (∀ responses : List ResponseData,
      (buildKeyPointFrequency responses).Forall (fun p =>
        (CORE_MESSAGE_THRESHOLD ≤ (p.2.length : ℚ) / (responses.length : ℚ) →
          p.1 ∈ (classifyKeyMessages responses).coreStableMessages) ∧
        (VARIABLE_MESSAGE_THRESHOLD ≤ (p.2.length : ℚ) / (responses.length : ℚ) ∧
            (p.2.length : ℚ) / (responses.length : ℚ) < CORE_MESSAGE_THRESHOLD →
          VariableMessage.mk p.1
              (roundJS ((p.2.length : ℚ) / (responses.length : ℚ) * 100))
              (jsSortAsc (fun n => (n : ℤ)) p.2) ∈
            (classifyKeyMessages responses).variableMessages) ∧
        ((p.2.length : ℚ) / (responses.length : ℚ) < VARIABLE_MESSAGE_THRESHOLD →
          p.1 ∈ (classifyKeyMessages responses).outliers) ∧
        (jsSortAsc (fun n => (n : ℤ)) p.2).Pairwise (fun a b => a ≤ b))) ∧
    classifyBuckets [("asana", [1, 2, 3, 4]), ("monday", [1, 3]), ("trello", [2])] 5 =
      ⟨["asana"], [⟨"monday", 40, [1, 3]⟩], ["trello"],
        [("asana", 4), ("monday", 2), ("trello", 1)]⟩ := by
  constructor
  · intro responses
    rw [List.forall_iff_forall_mem]
    intro p hp
    have hT : 0 < responses.length := by
      rcases responses with _ | ⟨r, rs⟩
      · exact absurd hp (by simp [buildKeyPointFrequency])
      · simp
    have hcls : classifyKeyMessages responses =
        classifyBuckets (buildKeyPointFrequency responses) responses.length := rfl
    refine ⟨?_, ?_, ?_, ?_⟩
    · intro hf
      rw [core_le_iff _ _ hT] at hf
      rw [hcls, classifyBuckets_eq]
      refine List.mem_map.mpr ⟨p, List.mem_filter.mpr ⟨hp, ?_⟩, rfl⟩
      rw [decide_eq_true_eq]
      omega
    · rintro ⟨hf1, hf2⟩
      rw [variable_le_iff _ _ hT] at hf1
      rw [lt_core_iff _ _ hT] at hf2
      rw [hcls, classifyBuckets_eq]
      refine List.mem_map.mpr ⟨p, List.mem_filter.mpr ⟨hp, ?_⟩, ?_⟩
      · rw [Bool.and_eq_true, Bool.not_eq_eq_eq_not, Bool.not_true, decide_eq_false_iff_not,
          decide_eq_true_eq]
        omega
      · rw [roundJS_freq _ _ hT]
    · intro hf
      rw [lt_variable_iff _ _ hT] at hf
      rw [hcls, classifyBuckets_eq]
      refine List.mem_map.mpr ⟨p, List.mem_filter.mpr ⟨hp, ?_⟩, rfl⟩
      rw [Bool.and_eq_true, Bool.not_eq_eq_eq_not, Bool.not_true, decide_eq_false_iff_not,
        Bool.not_eq_eq_eq_not, Bool.not_true, decide_eq_false_iff_not]
      omega
    · exact jsSortAsc_sorted _ _
  · decide

/-- Helper: a generic fold-invariant preserver. -/
theorem foldl_preserve {M A : Type} (P : M → Prop) (f : M → A → M)
    (hstep : ∀ m a, P m → P (f m a)) :
    ∀ (l : List A) (m : M), P m → P (l.foldl f m) := by
  intro l
  induction l with
  | nil => intro m hm; exact hm
  | cons x xs ih => intro m hm; exact ih _ (hstep m x hm)

/-- Helper: a successful similar-cluster insertion keeps the key list. -/
theorem addToFirstSimilar_keys :
    ∀ (m m2 : List (String × List ℕ)) (n : String) (i : ℕ),
      addToFirstSimilar m n i = some m2 → m2.map Prod.fst = m.map Prod.fst := by
  intro m
  induction m with
  | nil => intro m2 n i h; exact absurd h (by simp [addToFirstSimilar])
  | cons p ps ih =>
    intro m2 n i h
    obtain ⟨k, s⟩ := p
    unfold addToFirstSimilar at h
    split_ifs at h with hs
    · injection h with h2
      rw [← h2]
      simp
    · cases hrec : addToFirstSimilar ps n i with
      | none => rw [hrec] at h; exact absurd h (by simp)
      | some rest2 =>
        rw [hrec] at h
        injection h with h2
        rw [← h2]
        simp [ih rest2 n i hrec]

/-- Helper: key list of a `mapSet`. -/
theorem mapSet_keys (m : List (String × List ℕ)) (k : String) (v : List ℕ) :
    (mapSet m k v).map Prod.fst =
      if k ∈ m.map Prod.fst then m.map Prod.fst else m.map Prod.fst ++ [k] := by
  induction m with
  | nil => simp [mapSet]
  | cons p ps ih =>
    obtain ⟨k0, v0⟩ := p
    by_cases h : k0 = k
    · subst h
      rw [show mapSet ((k0, v0) :: ps) k0 v = (k0, v) :: ps from by simp [mapSet]]
      simp
    · rw [show mapSet ((k0, v0) :: ps) k v = (k0, v0) :: mapSet ps k v from by
        simp [mapSet, h]]
      rw [List.map_cons, List.map_cons, ih]
      by_cases hk : k ∈ ps.map Prod.fst
      · rw [if_pos hk, if_pos (by simp [hk])]
      · rw [if_neg hk, if_neg (by simp [hk, Ne.symm h]), List.cons_append]

/-- Helper: cluster insertion preserves distinctness of the keys. -/
theorem addKeyPoint_keys_nodup (m : List (String × List ℕ)) (n : String) (i : ℕ)
    (h : (m.map Prod.fst).Nodup) : ((addKeyPoint m n i).map Prod.fst).Nodup := by
  unfold addKeyPoint
  cases hres : addToFirstSimilar m n i with
  | some m2 =>
    dsimp only
    rw [addToFirstSimilar_keys m m2 n i hres]
    exact h
  | none =>
    dsimp only
    rw [mapSet_keys]
    split_ifs with hk
    · exact h
    · simp [List.nodup_append, h, hk]

/-- Helper: the cluster map of `classifyKeyMessages` has distinct keys. -/
theorem buildKeyPointFrequency_keys_nodup (responses : List ResponseData) :
    ((buildKeyPointFrequency responses).map Prod.fst).Nodup := by
  unfold buildKeyPointFrequency
  refine foldl_preserve (fun m : List (String × List ℕ) => (m.map Prod.fst).Nodup) _ ?_ _ _
    (by simp)
  intro m p hm
  exact foldl_preserve (fun m2 : List (String × List ℕ) => (m2.map Prod.fst).Nodup) _
    (fun m2 kp hm2 => addKeyPoint_keys_nodup _ _ _ hm2) _ _ hm

/-- Helper: `Set.add` preserves distinctness of the iteration set. -/
theorem addIter_nodup (s : List ℕ) (i : ℕ) (h : s.Nodup) : (addIter s i).Nodup := by
  unfold addIter
  split_ifs with hi
  · exact h
  · simp [List.nodup_append, h, hi]

/-- Helper: a successful similar-cluster insertion keeps iteration sets
duplicate-free. -/
theorem addToFirstSimilar_values :
    ∀ (m m2 : List (String × List ℕ)) (n : String) (i : ℕ),
      addToFirstSimilar m n i = some m2 → (∀ p ∈ m, p.2.Nodup) → ∀ p ∈ m2, p.2.Nodup := by
  intro m
  induction m with
  | nil => intro m2 n i h; exact absurd h (by simp [addToFirstSimilar])
  | cons p ps ih =>
    intro m2 n i h hall
    obtain ⟨k, s⟩ := p
    unfold addToFirstSimilar at h
    split_ifs at h with hs
    · injection h with h2
      rw [← h2]
      intro q hq
      rcases List.mem_cons.mp hq with rfl | hq2
      · exact addIter_nodup s i (hall (k, s) (by simp))
      · exact hall q (List.mem_cons_of_mem _ hq2)
    · cases hrec : addToFirstSimilar ps n i with
      | none => rw [hrec] at h; exact absurd h (by simp)
      | some rest2 =>
        rw [hrec] at h
        injection h with h2
        rw [← h2]
        intro q hq
        rcases List.mem_cons.mp hq with rfl | hq2
        · exact hall (k, s) (by simp)
        · exact ih rest2 n i hrec (fun r hr => hall r (List.mem_cons_of_mem _ hr)) q hq2

/-- Helper: `Map.set` with a duplicate-free value keeps iteration sets
duplicate-free. -/
theorem mapSet_values (m : List (String × List ℕ)) (k : String) (v : List ℕ)
    (hv : v.Nodup) (h : ∀ p ∈ m, p.2.Nodup) : ∀ p ∈ mapSet m k v, p.2.Nodup := by
  induction m with
  | nil =>
    intro p hp
    rcases List.mem_singleton.mp hp with rfl
    exact hv
  | cons q qs ih =>
    obtain ⟨k0, v0⟩ := q
    unfold mapSet
    split_ifs with hk
    · intro p hp
      rcases List.mem_cons.mp hp with rfl | hp2
      · exact hv
      · exact h p (List.mem_cons_of_mem _ hp2)
    · intro p hp
      rcases List.mem_cons.mp hp with rfl | hp2
      · exact h (k0, v0) (by simp)
      · exact ih (fun r hr => h r (List.mem_cons_of_mem _ hr)) p hp2

/-- Helper: every iteration set in the cluster map is duplicate-free. -/
theorem buildKeyPointFrequency_values_nodup (responses : List ResponseData) :
    ∀ p ∈ buildKeyPointFrequency responses, p.2.Nodup := by
  unfold buildKeyPointFrequency
  refine foldl_preserve (fun m : List (String × List ℕ) => ∀ p ∈ m, p.2.Nodup) _ ?_ _ _
    (by simp)
  intro m p hm
  refine foldl_preserve (fun m2 : List (String × List ℕ) => ∀ q ∈ m2, q.2.Nodup) _ ?_ _ _ hm
  intro m2 kp hm2
  unfold addKeyPoint
  cases hres : addToFirstSimilar m2 (normalizeKeyPoint kp) (p.1 + 1) with
  | some m3 =>
    dsimp only
    exact addToFirstSimilar_values m2 m3 _ _ hres hm2
  | none =>
    dsimp only
    exact mapSet_values m2 _ _ (by simp) hm2

/-- Helper: two entries of a list with distinct keys and the same key are
the same entry. -/
theorem eq_of_mem_keys_nodup {β : Type} (m : List (String × β))
    (hnd : (m.map Prod.fst).Nodup) (p q : String × β)
    (hp : p ∈ m) (hq : q ∈ m) (hk : p.1 = q.1) : p = q := by
  induction m with
  | nil => cases hp
  | cons r rs ih =>
    rw [List.map_cons, List.nodup_cons] at hnd
    rcases List.mem_cons.mp hp with rfl | hp2
    · rcases List.mem_cons.mp hq with rfl | hq2
      · rfl
      · exact absurd (hk ▸ List.mem_map_of_mem Prod.fst hq2) hnd.1
    · rcases List.mem_cons.mp hq with rfl | hq2
      · exact absurd (hk ▸ List.mem_map_of_mem Prod.fst hp2) hnd.1
      · exact ih hnd.2 hp2 hq2

/-- Helper: with distinct keys, a key of an entry is among the keys of a
filtered sublist exactly when the entry passes the filter. -/
theorem mem_map_fst_filter_iff {β : Type} (m : List (String × β))
    (hnd : (m.map Prod.fst).Nodup) (cond : String × β → Bool) (p : String × β)
    (hp : p ∈ m) :
    p.1 ∈ (m.filter cond).map Prod.fst ↔ cond p = true := by
  constructor
  · intro hmem
    obtain ⟨q, hq, hqk⟩ := List.mem_map.mp hmem
    obtain ⟨hq1, hq2⟩ := List.mem_filter.mp hq
    rw [eq_of_mem_keys_nodup m hnd p q hp hq1 hqk.symm]
    exact hq2
  · intro hc
    exact List.mem_map.mpr ⟨p, List.mem_filter.mpr ⟨hp, hc⟩, rfl⟩

/-- Helper: a message among the variable entries built from a cluster list
is exactly a key of that list. -/
theorem exists_message_iff (L : List (String × List ℕ)) (g : String × List ℕ → ℤ)
    (hpat : String × List ℕ → List ℕ) (x : String) :
    (∃ vm ∈ L.map (fun q => VariableMessage.mk q.1 (g q) (hpat q)), vm.message = x) ↔
      x ∈ L.map Prod.fst := by
  constructor
  · rintro ⟨vm, hvm, hmsg⟩
    obtain ⟨q, hq, rfl⟩ := List.mem_map.mp hvm
    exact List.mem_map.mpr ⟨q, hq, hmsg⟩
  · intro hx
    obtain ⟨q, hq, rfl⟩ := List.mem_map.mp hx
    exact ⟨VariableMessage.mk q.1 (g q) (hpat q), List.mem_map.mpr ⟨q, hq, rfl⟩, rfl⟩

/-- C9: `classifyKeyMessages` partitions its clusters: every cluster
representative appears in exactly one of the core, variable and outlier
buckets, and appears as a key of `keyPointFrequency` whose value is the
number of (distinct) iterations assigned to the cluster. -/
theorem classify_partition (responses : List ResponseData) :
    (buildKeyPointFrequency responses).Forall (fun p =>
      p.2.Nodup ∧
      (p.1, p.2.length) ∈ (classifyKeyMessages responses).keyPointFrequency ∧
      ((p.1 ∈ (classifyKeyMessages responses).coreStableMessages ∧
          ¬(∃ vm ∈ (classifyKeyMessages responses).variableMessages, vm.message = p.1) ∧
          p.1 ∉ (classifyKeyMessages responses).outliers) ∨
        (p.1 ∉ (classifyKeyMessages responses).coreStableMessages ∧
          (∃ vm ∈ (classifyKeyMessages responses).variableMessages, vm.message = p.1) ∧
          p.1 ∉ (classifyKeyMessages responses).outliers) ∨
        (p.1 ∉ (classifyKeyMessages responses).coreStableMessages ∧
          ¬(∃ vm ∈ (classifyKeyMessages responses).variableMessages, vm.message = p.1) ∧
          p.1 ∈ (classifyKeyMessages responses).outliers))) := by
  rw [List.forall_iff_forall_mem]
  intro p hp
  have hnd := buildKeyPointFrequency_keys_nodup responses
  have hcls : classifyKeyMessages responses =
      classifyBuckets (buildKeyPointFrequency responses) responses.length := rfl
  refine ⟨buildKeyPointFrequency_values_nodup responses p hp, ?_, ?_⟩
  · rw [hcls, classifyBuckets_eq]
    exact List.mem_map.mpr ⟨p, hp, rfl⟩
  · rw [hcls, classifyBuckets_eq]
    dsimp only
    rw [exists_message_iff]
    rw [mem_map_fst_filter_iff _ hnd _ p hp, mem_map_fst_filter_iff _ hnd _ p hp,
      mem_map_fst_filter_iff _ hnd _ p hp]
    by_cases h1 : 8 * responses.length ≤ 10 * p.2.length
    · refine Or.inl ⟨by simp [h1], by simp [h1], by simp [h1]⟩
    · by_cases h2 : 3 * responses.length ≤ 10 * p.2.length
      · refine Or.inr (Or.inl ⟨by simp [h1], by simp [h1, h2], by simp [h1, h2]⟩)
      · refine Or.inr (Or.inr ⟨by simp [h1], by simp [h1, h2], by simp [h1, h2]⟩)

/-- Helper: filtering a stable insertion, when equal elements keep order
and the comparator is transitive, appends the inserted element exactly when
it passes the filter. -/
theorem stableInsert_filter {α : Type} (keep : α → α → Bool) (p : α → Bool)
    (hkeepP : ∀ a b, p a = true → p b = true → keep a b = true)
    (htrans : ∀ a b c, keep a b = true → keep b c = true → keep a c = true)
    (x : α) (acc : List α) (hacc : acc.Pairwise (fun a b => keep a b = true)) :
    (stableInsert keep x acc).filter p =
      if p x then acc.filter p ++ [x] else acc.filter p := by
  induction acc with
  | nil =>
    rw [show stableInsert keep x [] = [x] from rfl, List.filter_cons]
    by_cases hpx : p x = true
    · simp [hpx]
    · simp [hpx]
  | cons y ys ih =>
    rcases List.pairwise_cons.mp hacc with ⟨hy, hys⟩
    by_cases hk : keep y x = true
    · rw [show stableInsert keep x (y :: ys) =
          if keep y x then y :: stableInsert keep x ys else x :: y :: ys from rfl, if_pos hk]
      rw [List.filter_cons, ih hys]
      simp only [List.filter_cons]
      by_cases hpx : p x = true <;> by_cases hpy : p y = true <;> simp [hpx, hpy]
    · rw [show stableInsert keep x (y :: ys) =
          if keep y x then y :: stableInsert keep x ys else x :: y :: ys from rfl, if_neg hk]
      simp only [List.filter_cons]
      by_cases hpx : p x = true
      · have hpy : p y = false := by
          by_contra hc
          rw [Bool.not_eq_false] at hc
          exact hk (hkeepP y x hc hpx)
        have hnil : ys.filter p = [] := by
          rw [List.filter_eq_nil_iff]
          intro z hz hpz
          exact hk (htrans y z x (hy z hz) (hkeepP z x hpz hpx))
        simp [hpx, hpy, hnil]
      · simp [hpx]

/-- Helper: the stable sort does not change a filter selecting elements the
comparator treats as mutual ties (JS sort stability). -/
theorem stableSort_filter {α : Type} (keep : α → α → Bool) (p : α → Bool)
    (hkeepP : ∀ a b, p a = true → p b = true → keep a b = true)
    (htot : ∀ a b, keep a b = false → keep b a = true)
    (htrans : ∀ a b c, keep a b = true → keep b c = true → keep a c = true)
    (l : List α) :
    (stableSort keep l).filter p = l.filter p := by
  unfold stableSort
  suffices hgo : ∀ (m acc : List α), acc.Pairwise (fun a b => keep a b = true) →
      (m.foldl (fun a x => stableInsert keep x a) acc).filter p =
        acc.filter p ++ m.filter p by
    simpa using hgo l [] List.Pairwise.nil
  intro m
  induction m with
  | nil => intro acc hacc; simp
  | cons x xs ih =>
    intro acc hacc
    rw [List.foldl_cons, ih _ (stableInsert_pairwise keep htot htrans x acc hacc),
      stableInsert_filter keep p hkeepP htrans x acc hacc, List.filter_cons]
    by_cases hpx : p x = true
    · simp [hpx]
    · simp [hpx]

/-- C8: `extractKeyPoints` returns at most 10 sentences; each returned
sentence is a trimmed sentence of the input that survives the length
bounds (not shorter than 20, not longer than 300); the output is in
descending score order; and among sentences of equal score, the original
sentence order is preserved (the output restricted to any one score is a
prefix of the surviving sentences restricted to that score). -/
theorem extractKeyPoints_spec (response : String) :
    (extractKeyPoints response).length ≤ 10 ∧
    (∀ s ∈ extractKeyPoints response,
      s ∈ (splitRuns isSentenceTerminal response.data).map (fun t => String.mk (trimJS t)) ∧
      ¬(s.length < 20) ∧ ¬(300 < s.length)) ∧
    (extractKeyPoints response).Pairwise
      (fun a b => scoreKeyPointSentence b ≤ scoreKeyPointSentence a) ∧
    (∀ k : ℕ,
      (extractKeyPoints response).filter (fun s => decide (scoreKeyPointSentence s = k)) <+:
      (((splitRuns isSentenceTerminal response.data).map
          (fun t => String.mk (trimJS t))).filter
        (fun s => decide (20 < s.length) && decide (s.length < 300))).filter
        (fun s => decide (scoreKeyPointSentence s = k))) := by
  have hval : ∀ item ∈ (((splitRuns isSentenceTerminal response.data).map
      (fun t => String.mk (trimJS t))).filter
        (fun s => decide (20 < s.length) && decide (s.length < 300))).map
      (fun sentence => ScoredSentence.mk sentence (scoreKeyPointSentence sentence)),
      item.score = scoreKeyPointSentence item.sentence := by
    intro item h
    obtain ⟨s, _, rfl⟩ := List.mem_map.mp h
    rfl
  set sentences := ((splitRuns isSentenceTerminal response.data).map
    (fun t => String.mk (trimJS t))).filter
      (fun s => decide (20 < s.length) && decide (s.length < 300)) with hsent
  set scored := sentences.map
    (fun sentence => ScoredSentence.mk sentence (scoreKeyPointSentence sentence)) with hscored
  set sorted := jsSortDesc (fun item : ScoredSentence => (item.score : ℤ)) scored with hsorted
  have hext : extractKeyPoints response = (sorted.take 10).map (fun item => item.sentence) := rfl
  have htakemem : ∀ item ∈ sorted.take 10, item ∈ scored := by
    intro item h
    exact (jsSortDesc_perm _ scored).mem_iff.mp (List.take_subset 10 sorted h)
  refine ⟨?_, ?_, ?_, ?_⟩
  · rw [hext, List.length_map, List.length_take]
    omega
  · intro s hs
    rw [hext] at hs
    obtain ⟨item, hitem, rfl⟩ := List.mem_map.mp hs
    obtain ⟨t, ht, rfl⟩ := List.mem_map.mp (htakemem item hitem)
    obtain ⟨htm, htc⟩ := List.mem_filter.mp ht
    rw [Bool.and_eq_true, decide_eq_true_eq, decide_eq_true_eq] at htc
    refine ⟨htm, ?_, ?_⟩ <;> dsimp only <;> omega
  · rw [hext, List.pairwise_map]
    have hp1 := jsSortDesc_sorted (fun item : ScoredSentence => (item.score : ℤ)) scored
    have hp2 := hp1.sublist (List.take_sublist 10 sorted)
    refine hp2.imp_of_mem ?_
    intro a b ha hb hab
    have hsa := hval a (htakemem a ha)
    have hsb := hval b (htakemem b hb)
    rw [← hsa, ← hsb]
    exact_mod_cast hab
  · intro k
    rw [hext, List.filter_map]
    have hcongr : (sorted.take 10).filter
        ((fun s => decide (scoreKeyPointSentence s = k)) ∘ (fun item => item.sentence)) =
        (sorted.take 10).filter (fun item => decide (item.score = k)) := by
      apply List.filter_congr
      intro a ha
      rw [Function.comp_apply, hval a (htakemem a ha)]
    rw [hcongr]
    have hstable : sorted.filter (fun item => decide (item.score = k)) =
        scored.filter (fun item => decide (item.score = k)) := by
      apply stableSort_filter
      · intro a b hpa hpb
        rw [decide_eq_true_eq] at hpa hpb
        dsimp only
        rw [decide_eq_true_eq]
        omega
      · intro a b hab
        dsimp only at hab ⊢
        rw [decide_eq_false_iff_not] at hab
        rw [decide_eq_true_eq]
        omega
      · intro a b c hab hbc
        dsimp only at hab hbc ⊢
        rw [decide_eq_true_eq] at hab hbc
        rw [decide_eq_true_eq]
        omega
    have hpre : (sorted.take 10).filter (fun item => decide (item.score = k)) <+:
        sorted.filter (fun item => decide (item.score = k)) :=
      (List.take_prefix 10 sorted).filter _
    rw [hstable] at hpre
    have hscoredf : scored.filter (fun item => decide (item.score = k)) =
        (sentences.filter (fun s => decide (scoreKeyPointSentence s = k))).map
          (fun sentence => ScoredSentence.mk sentence (scoreKeyPointSentence sentence)) := by
      rw [hscored, List.filter_map]
      rfl
    rw [hscoredf] at hpre
    have := hpre.map (fun item => item.sentence)
    rw [List.map_map] at this
    have hid : ((fun item : ScoredSentence => item.sentence) ∘
        (fun sentence => ScoredSentence.mk sentence (scoreKeyPointSentence sentence))) = id := by
      funext s
      rfl
    rw [hid, List.map_id] at this
    exact this

/-- Helper: one mention event keeps every context position recorded and
all contexts pairwise at least 10 characters apart. -/
theorem mention_fold_invariant (response : String)
    (st : List ℕ × List BrandMentionContext)
    (ev : ℕ × ℕ)
    (hinv : (∀ c ∈ st.2, c.position ∈ st.1) ∧
      st.2.Pairwise (fun a b => 10 ≤ ((a.position : ℤ) - (b.position : ℤ)).natAbs)) :
    (∀ c ∈ (mentionStep response st ev).2, c.position ∈ (mentionStep response st ev).1) ∧
      (mentionStep response st ev).2.Pairwise
        (fun a b => 10 ≤ ((a.position : ℤ) - (b.position : ℤ)).natAbs) := by
  unfold mentionStep
  split_ifs with hdup
  · exact hinv
  · dsimp only
    obtain ⟨hmem, hpw⟩ := hinv
    constructor
    · intro c hc
      rcases List.mem_append.mp hc with hc1 | hc2
      · exact List.mem_append.mpr (Or.inl (hmem c hc1))
      · rcases List.mem_singleton.mp hc2 with rfl
        exact List.mem_append.mpr (Or.inr (by simp [buildContext]))
    · rw [List.pairwise_append]
      refine ⟨hpw, List.pairwise_singleton _ _, ?_⟩
      intro a ha b hb
      rcases List.mem_singleton.mp hb with rfl
      have hapos := hmem a ha
      have hfar : ¬(((a.position : ℤ) - (ev.1 : ℤ)).natAbs < 10) := by
        intro hlt
        exact hdup (List.any_eq_true.mpr ⟨a.position, hapos, by simp [hlt]⟩)
      simp only [buildContext]
      omega

set_option maxHeartbeats 1000000

/-- C10: the brand-mention contexts are sorted by ascending position with
any two entries at least 10 characters apart (nearby matches of other
variations are suppressed as duplicates), and an empty response or brand
name yields the empty list. -/
theorem extractBrandMentions_spec :
    (∀ response brandName : String,
      (extractBrandMentions response brandName).Pairwise
        (fun a b => a.position + 10 ≤ b.position)) ∧
    (∀ brandName : String, extractBrandMentions "" brandName = []) ∧
    (∀ response : String, extractBrandMentions response "" = []) := by
  refine ⟨?_, ?_, ?_⟩
  · intro response brandName
    unfold extractBrandMentions
    split_ifs with hempty
    · simp
    · dsimp only
      have hinv := foldl_preserve
        (fun st : List ℕ × List BrandMentionContext =>
          (∀ c ∈ st.2, c.position ∈ st.1) ∧
          st.2.Pairwise (fun a b => 10 ≤ ((a.position : ℤ) - (b.position : ℤ)).natAbs))
        (fun st v =>
          (brandMatchPositions v.data response.data).foldl
            (fun st2 pos => mentionStep response st2 (pos, v.length)) st)
        (fun st v hst =>
          foldl_preserve _
            (fun st2 pos => mentionStep response st2 (pos, v.length))
            (fun st2 pos hst2 => mention_fold_invariant response st2 (pos, v.length) hst2)
            _ _ hst)
        (generateBrandVariations brandName) ([], [])
        ⟨by simp, List.Pairwise.nil⟩
      have hdist := hinv.2.perm
        (jsSortAsc_perm (fun c : BrandMentionContext => (c.position : ℤ)) _).symm
        (fun {a b} hab => by omega)
      refine (List.Pairwise.and (jsSortAsc_sorted _ _) hdist).imp ?_
      intro a b hab
      obtain ⟨h1, h2⟩ := hab
      omega
  · intro brandName
    unfold extractBrandMentions
    have hc : brandName.length = 0 ∨ String.length "" = 0 := Or.inr rfl
    rw [if_pos hc]
  · intro response
    unfold extractBrandMentions
    have hc : String.length "" = 0 ∨ response.length = 0 := Or.inl rfl
    rw [if_pos hc]

set_option maxHeartbeats 200000

/-- C4 counterexample: with a database containing both "Alpha" and
"Alpha Beta", the text "Alpha Beta" yields the spans (0,5) and (0,10),
which overlap: the exact-span-only dedup keeps different-length matches
starting at the same position, so the spans are not non-overlapping. -/
theorem detectBrands_not_nonoverlapping :
    ¬ (∀ (d : BrandDetector) (text : String) (minC : BrandConfidence)
        (maxR : Option ℕ),
        (detectBrands d text minC maxR).Pairwise
          (fun a b => a.endIndex ≤ b.startIndex)) := by
  intro h
  have hc := h ⟨[], [], [("alpha", "Alpha"), ("alpha beta", "Alpha Beta")]⟩
    "Alpha Beta" .low none
  exact absurd hc (by decide)

/-- Helper: one candidate step of the detection loop preserves pairwise
distinctness of the (start, end) spans. -/
theorem detectCandidateStep_pairwise (d : BrandDetector) (minC : BrandConfidence)
    (words : List Token) (i : ℕ) (det2 : List DetectedBrand) (len : ℕ)
    (h : det2.Pairwise
      (fun a b => ¬(a.startIndex = b.startIndex ∧ a.endIndex = b.endIndex))) :
    (detectCandidateStep d minC words i det2 len).Pairwise
      (fun a b => ¬(a.startIndex = b.startIndex ∧ a.endIndex = b.endIndex)) := by
  unfold detectCandidateStep
  dsimp only
  split
  · exact h
  · split
    · exact h
    · split_ifs with hmeets
      · split
        · split_ifs with hdup
          · exact h
          · rw [List.pairwise_append]
            refine ⟨h, List.pairwise_singleton _ _, ?_⟩
            intro a ha b hb
            rcases List.mem_singleton.mp hb with rfl
            dsimp only
            rintro ⟨hs, he⟩
            exact hdup (List.any_eq_true.mpr ⟨a, ha, by simp [hs, he]⟩)
        · exact h
      · exact h

/-- C4 amended: the detected brand occurrences are sorted by monotonically
non-decreasing start offset and no two share an identical (start, end)
span; spans can however overlap (same start with different lengths, or a
match starting inside an earlier span), which the counterexample
exhibits. -/
theorem detectBrands_sorted_and_span_distinct (d : BrandDetector) (text : String)
    (minC : BrandConfidence) (maxR : Option ℕ) :
    (detectBrands d text minC maxR).Pairwise
      (fun a b => a.startIndex ≤ b.startIndex) ∧
    (detectBrands d text minC maxR).Pairwise
      (fun a b => ¬(a.startIndex = b.startIndex ∧ a.endIndex = b.endIndex)) := by
  unfold detectBrands
  dsimp only
  have hdet := foldl_preserve
    (fun det : List DetectedBrand => det.Pairwise
      (fun a b => ¬(a.startIndex = b.startIndex ∧ a.endIndex = b.endIndex)))
    (fun det i => (List.range' 1 (min 3 ((tokenize text.data).length - i))).foldl
      (detectCandidateStep d minC (tokenize text.data) i) det)
    (fun det i hd => foldl_preserve _
      (detectCandidateStep d minC (tokenize text.data) i)
      (fun det2 len h2 => detectCandidateStep_pairwise d minC (tokenize text.data) i det2 len h2)
      _ _ hd)
    (List.range (tokenize text.data).length) [] List.Pairwise.nil
  have hdists := hdet.perm
    (jsSortAsc_perm (fun b : DetectedBrand => (b.startIndex : ℤ)) _).symm
    (fun {a b} hab hc => hab ⟨hc.1.symm, hc.2.symm⟩)
  have hsorts := (jsSortAsc_sorted (fun b : DetectedBrand => (b.startIndex : ℤ))
    ((List.range (tokenize text.data).length).foldl
      (fun det i => (List.range' 1 (min 3 ((tokenize text.data).length - i))).foldl
        (detectCandidateStep d minC (tokenize text.data) i) det) [])).imp
    (fun {a b} hab => by exact_mod_cast hab)
  cases maxR with
  | none => exact ⟨hsorts, hdists⟩
  | some k =>
    exact ⟨hsorts.sublist (List.take_sublist k _), hdists.sublist (List.take_sublist k _)⟩

/-- C2 counterexample: the text normalizer is not idempotent. On "--x" the
bullet pass strips one leading hyphen per application: one pass gives
"-x", a second gives "x". -/
theorem cleanResponse_not_idempotent :
    ¬ ∀ x : String, cleanResponse (cleanResponse x) = cleanResponse x := by
  intro h
  exact absurd (h "--x") (by decide)

/-- Helper: the header pass is the identity on hash-free text. -/
theorem stripHeadersAux_id (fuel : ℕ) :
    ∀ (l : List Char) (b : Bool), l.length ≤ fuel → (∀ c ∈ l, ¬c = '#') →
      stripHeadersAux fuel b l = l := by
  induction fuel with
  | zero =>
    intro l b hf _
    rcases List.length_eq_zero.mp (Nat.le_zero.mp hf) with rfl
    rfl
  | succ fuel ih =>
    intro l b hf h
    cases l with
    | nil => rfl
    | cons c cs =>
      show (if b && decide (c = '#') then _ else c :: stripHeadersAux fuel (decide (c = '\n')) cs) = _
      rw [if_neg (by simp [h c (by simp)])]
      rw [ih cs _ (by simpa using Nat.le_of_succ_le_succ hf) (fun d hd => h d (by simp [hd]))]

/-- Helper: the doubled-marker emphasis pass is the identity on
marker-free text. -/
theorem stripPair2_id (m : Char) (fuel : ℕ) :
    ∀ l : List Char, l.length ≤ fuel → (∀ c ∈ l, ¬c = m) →
      stripPair2 m fuel l = l := by
  induction fuel with
  | zero =>
    intro l hf _
    rcases List.length_eq_zero.mp (Nat.le_zero.mp hf) with rfl
    rfl
  | succ fuel ih =>
    intro l hf h
    cases l with
    | nil => rfl
    | cons c cs =>
      show (if decide (c = m) && _ then _ else c :: stripPair2 m fuel cs) = _
      rw [if_neg (by simp [h c (by simp)])]
      rw [ih cs (by simpa using Nat.le_of_succ_le_succ hf) (fun d hd => h d (by simp [hd]))]

/-- Helper: the single-marker emphasis pass is the identity on marker-free
text. -/
theorem stripPair1_id (m : Char) (fuel : ℕ) :
    ∀ l : List Char, l.length ≤ fuel → (∀ c ∈ l, ¬c = m) →
      stripPair1 m fuel l = l := by
  induction fuel with
  | zero =>
    intro l hf _
    rcases List.length_eq_zero.mp (Nat.le_zero.mp hf) with rfl
    rfl
  | succ fuel ih =>
    intro l hf h
    cases l with
    | nil => rfl
    | cons c cs =>
      simp only [stripPair1]
      rw [if_neg (by simp [h c (by simp)])]
      rw [ih cs (by simpa using Nat.le_of_succ_le_succ hf) (fun d hd => h d (by simp [hd]))]

/-- Helper: the bullet pass is the identity on hyphen-free and
asterisk-free text. -/
theorem stripBulletsAux_id (fuel : ℕ) :
    ∀ (l : List Char) (b : Bool), l.length ≤ fuel →
      (∀ c ∈ l, ¬c = '-' ∧ ¬c = '*') → stripBulletsAux fuel b l = l := by
  induction fuel with
  | zero =>
    intro l b hf _
    rcases List.length_eq_zero.mp (Nat.le_zero.mp hf) with rfl
    rfl
  | succ fuel ih =>
    intro l b hf h
    cases l with
    | nil => rfl
    | cons c cs =>
      cases b with
      | false =>
        show c :: stripBulletsAux fuel (decide (c = '\n')) cs = _
        rw [ih cs _ (by simpa using Nat.le_of_succ_le_succ hf)
          (fun d hd => h d (by simp [hd]))]
      | true =>
        show (match (c :: cs).dropWhile isWsJS with
          | m :: rest2 =>
            if m = '-' || m = '*' then _
            else (c :: cs).takeWhile isWsJS ++
              m :: stripBulletsAux fuel (decide (m = '\n')) rest2
          | [] => (c :: cs).takeWhile isWsJS) = c :: cs
        cases hdw : (c :: cs).dropWhile isWsJS with
        | nil =>
          dsimp only
          conv_rhs => rw [← List.takeWhile_append_dropWhile isWsJS (c :: cs)]
          rw [hdw, List.append_nil]
        | cons mm rest2 =>
          have hmm : mm ∈ c :: cs := (List.dropWhile_suffix isWsJS).subset (hdw ▸ by simp)
          have hrest : ∀ d ∈ rest2, d ∈ c :: cs :=
            fun d hd => (List.dropWhile_suffix isWsJS).subset (hdw ▸ by simp [hd])
          dsimp only
          rw [if_neg (by simp [(h mm hmm).1, (h mm hmm).2])]
          have hlen : rest2.length ≤ fuel := by
            have h1 : ((c :: cs).dropWhile isWsJS).length ≤ (c :: cs).length :=
              (List.dropWhile_suffix isWsJS).length_le
            rw [hdw] at h1
            simp only [List.length_cons] at h1 hf
            omega
          rw [ih rest2 _ hlen (fun d hd => h d (hrest d hd))]
          conv_rhs => rw [← List.takeWhile_append_dropWhile isWsJS (c :: cs)]
          rw [hdw]

/-- Helper: the numbered-list pass is the identity on digit-free text. -/
theorem stripNumberedAux_id (fuel : ℕ) :
    ∀ (l : List Char) (b : Bool), l.length ≤ fuel →
      (∀ c ∈ l, c.isDigit = false) → stripNumberedAux fuel b l = l := by
  induction fuel with
  | zero =>
    intro l b hf _
    rcases List.length_eq_zero.mp (Nat.le_zero.mp hf) with rfl
    rfl
  | succ fuel ih =>
    intro l b hf h
    cases l with
    | nil => rfl
    | cons c cs =>
      cases b with
      | false =>
        show c :: stripNumberedAux fuel (decide (c = '\n')) cs = _
        rw [ih cs _ (by simpa using Nat.le_of_succ_le_succ hf)
          (fun d hd => h d (by simp [hd]))]
      | true =>
        have hrestmem : ∀ d ∈ (c :: cs).dropWhile isWsJS, d ∈ c :: cs :=
          fun d hd => (List.dropWhile_suffix isWsJS).subset hd
        have hdig : ((c :: cs).dropWhile isWsJS).takeWhile Char.isDigit = [] := by
          cases hr : (c :: cs).dropWhile isWsJS with
          | nil => rfl
          | cons r rs =>
            rw [List.takeWhile_cons, h r (hrestmem r (by rw [hr]; simp))]
            simp
        have hdig2 : ((c :: cs).dropWhile isWsJS).dropWhile Char.isDigit =
            (c :: cs).dropWhile isWsJS := by
          cases hr : (c :: cs).dropWhile isWsJS with
          | nil => rfl
          | cons r rs =>
            rw [List.dropWhile_cons, h r (hrestmem r (by rw [hr]; simp))]
            simp
        simp only [stripNumberedAux, if_true]
        rw [hdig2, hdig]
        cases hdw : (c :: cs).dropWhile isWsJS with
        | nil =>
          dsimp only
          rw [List.append_nil]
          conv_rhs => rw [← List.takeWhile_append_dropWhile isWsJS (c :: cs), hdw, List.append_nil]
        | cons mm rest2 =>
          have hlen : rest2.length ≤ fuel := by
            have h1 : ((c :: cs).dropWhile isWsJS).length ≤ (c :: cs).length :=
              (List.dropWhile_suffix isWsJS).length_le
            rw [hdw] at h1
            simp only [List.length_cons] at h1 hf
            omega
          have hrest2 : ∀ d ∈ rest2, d ∈ c :: cs :=
            fun d hd => hrestmem d (hdw ▸ by simp [hd])
          split
          · next x rest3 heq =>
            injection heq with h1 h2
            subst h1
            subst h2
            rw [ih rest2 false hlen (fun d hd => h d (hrest2 d hd))]
            conv_rhs => rw [← List.takeWhile_append_dropWhile isWsJS (c :: cs), hdw]
            rw [if_pos (by simp)]
          · next x m rest3 heq hne =>
            injection hne with h1 h2
            subst h1
            subst h2
            rw [List.append_nil]
            rw [ih rest2 _ hlen (fun d hd => h d (hrest2 d hd))]
            conv_rhs => rw [← List.takeWhile_append_dropWhile isWsJS (c :: cs), hdw]
          · next x heq =>
            exact absurd heq (by simp)

/-- Helper: the code-block pass is the identity on backtick-free text. -/
theorem stripCodeBlocksAux_id (fuel : ℕ) :
    ∀ l : List Char, l.length ≤ fuel → (∀ c ∈ l, ¬c = backtickChar) →
      stripCodeBlocksAux fuel l = l := by
  induction fuel with
  | zero =>
    intro l hf _
    rcases List.length_eq_zero.mp (Nat.le_zero.mp hf) with rfl
    rfl
  | succ fuel ih =>
    intro l hf h
    cases l with
    | nil => rfl
    | cons c cs =>
      simp only [stripCodeBlocksAux]
      rw [if_neg (by simp [h c (by simp)])]
      rw [ih cs (by simpa using Nat.le_of_succ_le_succ hf) (fun d hd => h d (by simp [hd]))]

/-- Helper: the inline-code pass is the identity on backtick-free text. -/
theorem stripInlineCodeAux_id (fuel : ℕ) :
    ∀ l : List Char, l.length ≤ fuel → (∀ c ∈ l, ¬c = backtickChar) →
      stripInlineCodeAux fuel l = l := by
  induction fuel with
  | zero =>
    intro l hf _
    rcases List.length_eq_zero.mp (Nat.le_zero.mp hf) with rfl
    rfl
  | succ fuel ih =>
    intro l hf h
    cases l with
    | nil => rfl
    | cons c cs =>
      simp only [stripInlineCodeAux]
      rw [if_neg (by simp [h c (by simp)])]
      rw [ih cs (by simpa using Nat.le_of_succ_le_succ hf) (fun d hd => h d (by simp [hd]))]

/-- Helper: every character of a collapsed list comes from the input. -/
theorem collapseChar_subset (t : Char) :
    ∀ (l : List Char) (b : Bool) (c : Char), c ∈ collapseChar t b l → c ∈ l := by
  intro l
  induction l with
  | nil => intro b c hc; cases b <;> simp [collapseChar] at hc
  | cons d ds ih =>
    intro b c hc
    by_cases hd : d = t
    · cases b with
      | true =>
        simp only [collapseChar, if_pos hd, if_pos rfl, List.nil_append] at hc
        exact List.mem_cons_of_mem d (ih true c hc)
      | false =>
        simp only [collapseChar, if_pos hd] at hc
        rcases List.mem_cons.mp (by simpa using hc) with h1 | h1
        · simp [h1]
        · exact List.mem_cons_of_mem d (ih true c h1)
    · simp only [collapseChar, if_neg hd] at hc
      rcases List.mem_cons.mp hc with h1 | h1
      · simp [h1]
      · exact List.mem_cons_of_mem d (ih false c h1)

/-- Helper: with the in-run flag set, the collapsed output never starts
with the target character. -/
theorem collapseChar_head_ne (t : Char) :
    ∀ l : List Char, ∀ hd ∈ (collapseChar t true l).head?, ¬hd = t := by
  intro l
  induction l with
  | nil => intro hd h; simp [collapseChar] at h
  | cons c cs ih =>
    intro hd h
    by_cases hc : c = t
    · simp only [collapseChar, if_pos hc, if_pos rfl, List.nil_append] at h
      exact ih hd h
    · simp only [collapseChar, if_neg hc, List.head?_cons, Option.mem_def,
        Option.some.injEq] at h
      exact fun he => hc (he ▸ h ▸ rfl)

/-- Helper: with the in-run flag clear, collapsing preserves the head. -/
theorem collapseChar_head_false (t : Char) (l : List Char) :
    (collapseChar t false l).head? = l.head? := by
  cases l with
  | nil => rfl
  | cons c cs =>
    by_cases hc : c = t
    · simp [collapseChar, if_pos hc]
    · simp [collapseChar, if_neg hc]

/-- Helper: collapsed output has no two adjacent copies of the target. -/
theorem collapseChar_chain (t : Char) :
    ∀ (l : List Char) (b : Bool),
      List.Chain' (fun a c => ¬(a = t ∧ c = t)) (collapseChar t b l) := by
  intro l
  induction l with
  | nil => intro b; cases b <;> simp [collapseChar]
  | cons c cs ih =>
    intro b
    by_cases hc : c = t
    · cases b with
      | true =>
        simp only [collapseChar, if_pos hc, if_pos rfl, List.nil_append]
        exact ih true
      | false =>
        simp only [collapseChar, if_pos hc]
        rw [show (if (false : Bool) = true then ([] : List Char) else [c]) ++
            collapseChar t true cs = c :: collapseChar t true cs from by simp]
        exact List.chain'_cons'.mpr
          ⟨fun y hy hcon => collapseChar_head_ne t cs y hy hcon.2, ih true⟩
    · simp only [collapseChar, if_neg hc]
      exact List.chain'_cons'.mpr ⟨fun y _ hcon => hc hcon.1, ih false⟩

/-- Helper: collapsing one character preserves no-adjacent-duplicates of a
different character. -/
theorem collapseChar_preserve_chain (s t : Char) (hst : ¬s = t) :
    ∀ (l : List Char) (b : Bool),
      List.Chain' (fun a c => ¬(a = t ∧ c = t)) l →
      List.Chain' (fun a c => ¬(a = t ∧ c = t)) (collapseChar s b l) := by
  intro l
  induction l with
  | nil => intro b _; cases b <;> simp [collapseChar]
  | cons c cs ih =>
    intro b hch
    have htl : List.Chain' (fun a c => ¬(a = t ∧ c = t)) cs := hch.tail
    have hhd : ∀ y ∈ cs.head?, ¬(c = t ∧ y = t) := (List.chain'_cons'.mp hch).1
    by_cases hc : c = s
    · cases b with
      | true =>
        simp only [collapseChar, if_pos hc, if_pos rfl, List.nil_append]
        exact ih true htl
      | false =>
        simp only [collapseChar, if_pos hc]
        rw [show (if (false : Bool) = true then ([] : List Char) else [c]) ++
            collapseChar s true cs = c :: collapseChar s true cs from by simp]
        exact List.chain'_cons'.mpr
          ⟨fun y _ hcon => hst (hc ▸ hcon.1), ih true htl⟩
    · simp only [collapseChar, if_neg hc]
      refine List.chain'_cons'.mpr ⟨fun y hy hcon => ?_, ih false htl⟩
      rw [collapseChar_head_false] at hy
      exact hhd y hy hcon

/-- Helper: collapsing is the identity on lists with no adjacent
duplicates of the target. -/
theorem collapseChar_eq_self (t : Char) :
    ∀ l : List Char, List.Chain' (fun a c => ¬(a = t ∧ c = t)) l →
      ∀ b : Bool, (b = true → ∀ hd ∈ l.head?, ¬hd = t) →
      collapseChar t b l = l := by
  intro l
  induction l with
  | nil => intro _ b _; cases b <;> rfl
  | cons c cs ih =>
    intro hch b hb
    have htl : List.Chain' (fun a c => ¬(a = t ∧ c = t)) cs := hch.tail
    have hhd : ∀ y ∈ cs.head?, ¬(c = t ∧ y = t) := (List.chain'_cons'.mp hch).1
    by_cases hc : c = t
    · cases b with
      | true => exact absurd hc (hb rfl c rfl)
      | false =>
        simp only [collapseChar, if_pos hc]
        rw [show (if (false : Bool) = true then ([] : List Char) else [c]) ++
            collapseChar t true cs = c :: collapseChar t true cs from by simp]
        rw [ih htl true (fun _ y hy he => hhd y hy ⟨hc, he⟩)]
    · simp only [collapseChar, if_neg hc]
      rw [ih htl false (by simp)]

/-- Helper: the head of a dropWhile result fails the predicate. -/
theorem head_dropWhile_false (p : Char → Bool) :
    ∀ l : List Char, ∀ hd ∈ (l.dropWhile p).head?, p hd = false := by
  intro l
  induction l with
  | nil => intro hd h; simp at h
  | cons c cs ih =>
    intro hd h
    by_cases hp : p c = true
    · rw [List.dropWhile_cons, if_pos hp] at h
      exact ih hd h
    · rw [List.dropWhile_cons, if_neg hp] at h
      simp only [List.head?_cons, Option.mem_def, Option.some.injEq] at h
      rw [← h]
      exact Bool.eq_false_iff.mpr hp

/-- Helper: dropWhile is the identity when the head fails the predicate. -/
theorem dropWhile_eq_self_of (p : Char → Bool) :
    ∀ l : List Char, (∀ hd ∈ l.head?, p hd = false) → l.dropWhile p = l := by
  intro l h
  cases l with
  | nil => rfl
  | cons c cs => rw [List.dropWhile_cons, if_neg (by simp [h c rfl])]

/-- Helper: trimming produces an infix of the input. -/
theorem trimJS_part (l : List Char) : trimJS l <:+: l := by
  have hX : ((l.dropWhile isWsJS).reverse.dropWhile isWsJS) <:+
      (l.dropWhile isWsJS).reverse := List.dropWhile_suffix isWsJS
  have hpre : ((l.dropWhile isWsJS).reverse.dropWhile isWsJS).reverse <+:
      l.dropWhile isWsJS := by
    have h2 := List.reverse_prefix.mpr hX
    simpa using h2
  exact hpre.isInfix.trans (List.dropWhile_suffix isWsJS).isInfix

/-- Helper: the JavaScript trim is idempotent. -/
theorem trimJS_idem (l : List Char) : trimJS (trimJS l) = trimJS l := by
  cases hX : (l.dropWhile isWsJS).reverse.dropWhile isWsJS with
  | nil =>
    show trimJS (trimJS l) = trimJS l
    rw [show trimJS l = ((l.dropWhile isWsJS).reverse.dropWhile isWsJS).reverse from rfl, hX]
    rfl
  | cons a X2 =>
    have hXsuf : ((l.dropWhile isWsJS).reverse.dropWhile isWsJS) <:+
        (l.dropWhile isWsJS).reverse := List.dropWhile_suffix isWsJS
    obtain ⟨pre, hpre⟩ := hXsuf
    have hlast : ((l.dropWhile isWsJS).reverse.dropWhile isWsJS).getLast? =
        (l.dropWhile isWsJS).head? := by
      have h2 : ((l.dropWhile isWsJS).reverse.dropWhile isWsJS).getLast? =
          (pre ++ (l.dropWhile isWsJS).reverse.dropWhile isWsJS).getLast? :=
        (List.getLast?_append_of_ne_nil pre (by rw [hX]; simp)).symm
      rw [hpre, List.getLast?_reverse] at h2
      exact h2
    have hheadrev : ∀ hd ∈ ((l.dropWhile isWsJS).reverse.dropWhile isWsJS).reverse.head?,
        isWsJS hd = false := by
      intro hd hhd
      rw [List.head?_reverse, hlast] at hhd
      exact head_dropWhile_false isWsJS l hd hhd
    have e1 : (trimJS l).dropWhile isWsJS = trimJS l :=
      dropWhile_eq_self_of isWsJS _ hheadrev
    show trimJS (trimJS l) = trimJS l
    rw [show trimJS (trimJS l) =
        (((trimJS l).dropWhile isWsJS).reverse.dropWhile isWsJS).reverse from rfl]
    rw [e1]
    rw [show (trimJS l).reverse =
        (l.dropWhile isWsJS).reverse.dropWhile isWsJS from by
      rw [show trimJS l = ((l.dropWhile isWsJS).reverse.dropWhile isWsJS).reverse from rfl,
        List.reverse_reverse]]
    rw [dropWhile_eq_self_of isWsJS _
      (fun hd hhd => head_dropWhile_false isWsJS (l.dropWhile isWsJS).reverse hd hhd)]
    rfl

/-- Helper: on marker-free and digit-free input, `cleanResponse` is just
collapse-newlines, collapse-spaces, trim. -/
theorem cleanResponse_eq_of_plain (x : String)
    (h : ∀ c ∈ x.data, isMarkdownMarker c = false ∧ c.isDigit = false) :
    cleanResponse x =
      String.mk (trimJS (collapseChar ' ' false (collapseChar '\n' false x.data))) := by
  have h5 : ∀ c ∈ x.data, ¬c = '#' ∧ ¬c = '*' ∧ ¬c = '-' ∧ ¬c = '_' ∧
      ¬c = backtickChar ∧ c.isDigit = false := by
    intro c hc
    have h1 := (h c hc).1
    refine ⟨fun he => ?_, fun he => ?_, fun he => ?_, fun he => ?_, fun he => ?_,
      (h c hc).2⟩ <;> (rw [he] at h1; exact absurd h1 (by decide))
  have e1 : stripHeaders x.data = x.data := by
    rw [stripHeaders]
    exact stripHeadersAux_id _ x.data true (le_refl _) (fun c hc => (h5 c hc).1)
  have e2 : stripPair2 '*' x.data.length x.data = x.data :=
    stripPair2_id '*' _ x.data (le_refl _) (fun c hc => (h5 c hc).2.1)
  have e3 : stripPair1 '*' x.data.length x.data = x.data :=
    stripPair1_id '*' _ x.data (le_refl _) (fun c hc => (h5 c hc).2.1)
  have e4 : stripPair2 '_' x.data.length x.data = x.data :=
    stripPair2_id '_' _ x.data (le_refl _) (fun c hc => (h5 c hc).2.2.2.1)
  have e5 : stripPair1 '_' x.data.length x.data = x.data :=
    stripPair1_id '_' _ x.data (le_refl _) (fun c hc => (h5 c hc).2.2.2.1)
  have e6 : stripBullets x.data = x.data := by
    rw [stripBullets]
    exact stripBulletsAux_id _ x.data true (le_refl _)
      (fun c hc => ⟨(h5 c hc).2.2.1, (h5 c hc).2.1⟩)
  have e7 : stripNumbered x.data = x.data := by
    rw [stripNumbered]
    exact stripNumberedAux_id _ x.data true (le_refl _)
      (fun c hc => (h5 c hc).2.2.2.2.2)
  have e8 : stripCodeBlocks x.data = x.data := by
    rw [stripCodeBlocks]
    exact stripCodeBlocksAux_id _ x.data (le_refl _)
      (fun c hc => (h5 c hc).2.2.2.2.1)
  have e9 : stripInlineCode x.data = x.data := by
    rw [stripInlineCode]
    exact stripInlineCodeAux_id _ x.data (le_refl _)
      (fun c hc => (h5 c hc).2.2.2.2.1)
  simp only [cleanResponse]
  rw [e1, e2, e3, e4, e5, e6, e7, e8, e9]

/-- C2 (amended): the original claim that `cleanResponse` is idempotent on
every input is false (see the counterexample on a leading double hyphen);
it is idempotent on inputs that contain no markdown marker character
(hash, asterisk, hyphen, underscore, backtick) and no digit. -/
theorem cleanResponse_idempotent_of_plain (x : String)
    (h : ∀ c ∈ x.data, isMarkdownMarker c = false ∧ c.isDigit = false) :
    cleanResponse (cleanResponse x) = cleanResponse x := by
  have hx := cleanResponse_eq_of_plain x h
  obtain ⟨z, hz⟩ : ∃ z : List Char, (cleanResponse x).data = z := ⟨_, rfl⟩
  have hdata : z = trimJS (collapseChar ' ' false (collapseChar '\n' false x.data)) := by
    rw [← hz, hx]
  have hsub : ∀ c ∈ z, c ∈ x.data := by
    intro c hc
    rw [hdata] at hc
    have h1 := (trimJS_part _).subset hc
    exact collapseChar_subset '\n' _ _ c (collapseChar_subset ' ' _ _ c h1)
  have h2 : ∀ c ∈ (cleanResponse x).data,
      isMarkdownMarker c = false ∧ c.isDigit = false := by
    intro c hc
    rw [hz] at hc
    exact h c (hsub c hc)
  have hy := cleanResponse_eq_of_plain (cleanResponse x) h2
  have hchainN : List.Chain' (fun a c => ¬(a = '\n' ∧ c = '\n')) z := by
    rw [hdata]
    exact List.Chain'.infix (collapseChar_preserve_chain ' ' '\n' (by decide) _ false
      (collapseChar_chain '\n' x.data false)) (trimJS_part _)
  have hchainS : List.Chain' (fun a c => ¬(a = ' ' ∧ c = ' ')) z := by
    rw [hdata]
    exact List.Chain'.infix (collapseChar_chain ' ' _ false) (trimJS_part _)
  have eN : collapseChar '\n' false z = z :=
    collapseChar_eq_self '\n' z hchainN false (fun hf => Bool.noConfusion hf)
  have eS : collapseChar ' ' false z = z :=
    collapseChar_eq_self ' ' z hchainS false (fun hf => Bool.noConfusion hf)
  have eT : trimJS z = z := by
    rw [hdata, trimJS_idem]
  rw [hy, hz, eN, eS, eT, hdata, ← hx]

/-- Witness for the amended C2 theorem: a concrete marker-free and
digit-free input on which idempotence holds. -/
theorem cleanResponse_idempotent_of_plain_witness :
    (∀ c ∈ ("  hello\n\n  world,   ok!" : String).data,
        isMarkdownMarker c = false ∧ c.isDigit = false) ∧
      cleanResponse (cleanResponse "  hello\n\n  world,   ok!") =
        cleanResponse "  hello\n\n  world,   ok!" :=
  ⟨by decide, cleanResponse_idempotent_of_plain _ (by decide)⟩

/-- Helper: closed form of the iteration loop of `analyzeStability`:
successes append their `ResponseData` in order, failures are delivered to
`onError` when supplied and to the console otherwise. -/
theorem stabilityFold_spec (brandName : Option String) (searchMode : SearchMode)
    (onErrorSupplied : Bool) (queryResults : ℕ → Except String QueryResult)
    (timestamps : ℕ → String) :
    ∀ (L : List ℕ) (rs : List ResponseData) (d c : List IterationError),
      L.foldl (stabilityStep brandName searchMode onErrorSupplied queryResults timestamps)
          (rs, d, c) =
        (rs ++ L.filterMap (fun i =>
            match queryResults i with
            | Except.ok r => some (buildResponseData brandName searchMode timestamps i r)
            | Except.error _ => none),
         d ++ (if onErrorSupplied = true then
            L.filterMap (fun i =>
              match queryResults i with
              | Except.ok _ => none
              | Except.error m => some { iteration := i, message := m }) else []),
         c ++ (if onErrorSupplied = true then ([] : List IterationError) else
            L.filterMap (fun i =>
              match queryResults i with
              | Except.ok _ => none
              | Except.error m => some { iteration := i, message := m }))) := by
  intro L
  induction L with
  | nil =>
    intro rs d c
    cases onErrorSupplied <;> simp
  | cons i L ih =>
    intro rs d c
    rw [List.foldl_cons]
    cases hq : queryResults i with
    | ok r =>
      have hstep : stabilityStep brandName searchMode onErrorSupplied queryResults
          timestamps (rs, d, c) i =
          (rs ++ [buildResponseData brandName searchMode timestamps i r], d, c) := by
        simp [stabilityStep, hq]
      rw [hstep, ih]
      simp [List.filterMap_cons, hq, List.append_assoc]
    | error m =>
      cases onErrorSupplied with
      | true =>
        have hstep : stabilityStep brandName searchMode true queryResults
            timestamps (rs, d, c) i =
            (rs, d ++ [{ iteration := i, message := m }], c) := by
          simp [stabilityStep, hq]
        rw [hstep, ih]
        simp [List.filterMap_cons, hq, List.append_assoc]
      | false =>
        have hstep : stabilityStep brandName searchMode false queryResults
            timestamps (rs, d, c) i =
            (rs, d, c ++ [{ iteration := i, message := m }]) := by
          simp [stabilityStep, hq]
        rw [hstep, ih]
        simp [List.filterMap_cons, hq, List.append_assoc]

/-- Helper: the number of recorded responses equals the number of
successful queries. -/
theorem length_filterMap_responses (brandName : Option String)
    (searchMode : SearchMode) (timestamps : ℕ → String)
    (queryResults : ℕ → Except String QueryResult) :
    ∀ L : List ℕ,
      (L.filterMap (fun i =>
        match queryResults i with
        | Except.ok r => some (buildResponseData brandName searchMode timestamps i r)
        | Except.error _ => none)).length =
      (L.filter (fun i => queryOk (queryResults i))).length := by
  intro L
  induction L with
  | nil => rfl
  | cons i L ih =>
    cases hq : queryResults i with
    | ok r => simp [List.filterMap_cons, List.filter_cons, hq, queryOk, ih]
    | error m => simp [List.filterMap_cons, List.filter_cons, hq, queryOk, ih]

/-- C1: with a nonempty API key and between 1 and 10 iterations,
`analyzeStability` raises the fatal all-iterations-failed error exactly
when no iteration succeeds (and returns no result in that case); when at
least one iteration succeeds it returns a result whose
`metadata.iterations` is the number of successful iterations; and every
failed iteration is delivered to the `onError` callback exactly when one
is supplied (otherwise the failures go to the console log), so failures
never abort the run. -/
theorem analyzeStability_spec (prompt model apiKey : String) (iterations : ℕ)
    (brandName : Option String) (searchMode : SearchMode) (onErrorSupplied : Bool)
    (queryResults : ℕ → Except String QueryResult) (timestamps : ℕ → String)
    (hkey : ¬apiKey = "") (h1 : 1 ≤ iterations) (h10 : iterations ≤ 10) :
    ((analyzeStability prompt model apiKey iterations brandName searchMode
        onErrorSupplied queryResults timestamps).1 =
          Except.error "All iterations failed - unable to complete analysis" ↔
        successCount queryResults iterations = 0) ∧
    ((∃ sr, (analyzeStability prompt model apiKey iterations brandName searchMode
        onErrorSupplied queryResults timestamps).1 = Except.ok sr) ↔
        ¬successCount queryResults iterations = 0) ∧
    (∀ sr, (analyzeStability prompt model apiKey iterations brandName searchMode
        onErrorSupplied queryResults timestamps).1 = Except.ok sr →
        sr.metadata.iterations = successCount queryResults iterations) ∧
    ((analyzeStability prompt model apiKey iterations brandName searchMode
        onErrorSupplied queryResults timestamps).2.1 =
      if onErrorSupplied = true then iterationFailures queryResults iterations else []) ∧
    ((analyzeStability prompt model apiKey iterations brandName searchMode
        onErrorSupplied queryResults timestamps).2.2 =
      if onErrorSupplied = true then [] else iterationFailures queryResults iterations) := by
  have hfold := stabilityFold_spec brandName searchMode onErrorSupplied queryResults
    timestamps (List.range' 1 iterations) [] [] []
  have hlen := length_filterMap_responses brandName searchMode timestamps queryResults
    (List.range' 1 iterations)
  have hfail : (List.range' 1 iterations).filterMap (fun i =>
      match queryResults i with
      | Except.ok _ => none
      | Except.error m => some { iteration := i, message := m }) =
      iterationFailures queryResults iterations := rfl
  simp only [analyzeStability]
  rw [if_neg hkey, if_neg (show ¬(iterations < 1 ∨ 10 < iterations) by omega)]
  rw [hfold]
  simp only [List.nil_append]
  rw [hfail]
  by_cases hz : successCount queryResults iterations = 0
  · rw [if_pos (by rw [hlen]; exact hz)]
    refine ⟨⟨fun _ => hz, fun _ => rfl⟩, ⟨fun ⟨sr, hsr⟩ => absurd hsr (by simp),
      fun h => absurd hz h⟩, fun sr hsr => absurd hsr (by simp), rfl, rfl⟩
  · rw [if_neg (by rw [hlen]; exact hz)]
    refine ⟨⟨fun h => absurd h (by simp), fun h => absurd h hz⟩,
      ⟨fun _ => hz, fun _ => ⟨_, rfl⟩⟩, fun sr hsr => ?_, rfl, rfl⟩
    have hsr2 := (Except.ok.inj hsr).symm
    rw [hsr2]
    exact hlen.trans rfl

/-- Witness for C1: the stability theorem applied at three iterations of
which the second fails, with a nonempty API key and `onError` supplied. -/
theorem analyzeStability_spec_witness :
    (¬"key" = "") ∧ ((1 : ℕ) ≤ 3) ∧ ((3 : ℕ) ≤ 10) ∧
    (((analyzeStability "p" "gemini" "key" 3 none SearchMode.memory true
        witnessQueryResults witnessTimestamps).1 =
          Except.error "All iterations failed - unable to complete analysis" ↔
        successCount witnessQueryResults 3 = 0) ∧
     ((∃ sr, (analyzeStability "p" "gemini" "key" 3 none SearchMode.memory true
        witnessQueryResults witnessTimestamps).1 = Except.ok sr) ↔
        ¬successCount witnessQueryResults 3 = 0) ∧
     (∀ sr, (analyzeStability "p" "gemini" "key" 3 none SearchMode.memory true
        witnessQueryResults witnessTimestamps).1 = Except.ok sr →
        sr.metadata.iterations = successCount witnessQueryResults 3) ∧
     ((analyzeStability "p" "gemini" "key" 3 none SearchMode.memory true
        witnessQueryResults witnessTimestamps).2.1 =
      if (true : Bool) = true then iterationFailures witnessQueryResults 3 else []) ∧
     ((analyzeStability "p" "gemini" "key" 3 none SearchMode.memory true
        witnessQueryResults witnessTimestamps).2.2 =
      if (true : Bool) = true then [] else iterationFailures witnessQueryResults 3)) :=
  ⟨by decide, by decide, by decide,
    analyzeStability_spec "p" "gemini" "key" 3 none SearchMode.memory true
      witnessQueryResults witnessTimestamps (by decide) (by decide) (by decide)⟩

end Rankfor
